import Mathlib

/-!
Verification of the CYS multi-PDF requirement extractor (`final.py`).

This file gives a shallow embedding, in Lean 4, of the decision logic of the
program: the regular-expression line classifiers, the per-page block
segmentation loop of `extract_requirements_from`, the word-level diff
annotator `highlight_diff` (a faithful model of Python `difflib.ndiff` as
used by the program, including `SequenceMatcher` and `Differ`), and the
spreadsheet merge routine `save_to_excel` (the worksheet is modelled as a
grid of cell values; purely cosmetic styling, column widths, file locking and
the GUI are out of scope).  Python float ratios are modelled as exact
fractions represented by numerator/denominator pairs of naturals; `None`
cell values are modelled as `""`, which is sound because the program reads
cell values only through `or ""`, `in (None, "")` and comparisons with
non-empty strings.  Strings are treated as sequences of characters; the
ASCII fragments of Python's `str.strip`, `str.split`, `str.lower`,
`\s`, `\w`, `\d` and `[A-Z]` (with `re.IGNORECASE`) are modelled exactly;
inputs are ASCII in all concrete statements below.
-/

namespace Verkush

/-! ### Python string primitives -/

/-- Python whitespace (`str.isspace`, `\s`) restricted to ASCII. -/
def pyIsSpace (c : Char) : Bool :=
  c = ' ' || c = '\t' || c = '\n' || c = '\r' || c = '\x0b' || c = '\x0c'

/-- Helper for `pySplit`: walk the characters, `acc` holds the current word
reversed. -/
def pySplitAux : List Char → List Char → List String
  | [], acc => if acc.isEmpty then [] else [String.mk acc.reverse]
  | c :: cs, acc =>
    if pyIsSpace c then
      if acc.isEmpty then pySplitAux cs []
      else String.mk acc.reverse :: pySplitAux cs []
    else pySplitAux cs (c :: acc)

/-- Python `str.split()` with no arguments: split on whitespace runs,
dropping empty pieces. -/
def pySplit (s : String) : List String := pySplitAux s.data []

/-- Python `str.strip()` (ASCII whitespace). -/
def pyStrip (s : String) : String :=
  String.mk (((s.data.dropWhile pyIsSpace).reverse.dropWhile pyIsSpace).reverse)

/-- Python `str.rstrip()` (ASCII whitespace). -/
def pyRstrip (s : String) : String :=
  String.mk ((s.data.reverse.dropWhile pyIsSpace).reverse)

/-- Python `str.lower()` on ASCII. -/
def pyLower (s : String) : String := String.mk (s.data.map Char.toLower)

/-- Case-insensitive character comparison (ASCII). -/
def ciEq (c d : Char) : Bool := c.toLower = d.toLower

/-- The character of `cs` at index `i`, if any. -/
def charAt (cs : List Char) (i : Nat) : Option Char := cs[i]?

/-- Length of the maximal run of characters satisfying `p` starting at
index `i`. -/
def runLen (p : Char → Bool) (cs : List Char) (i : Nat) : Nat :=
  ((cs.drop i).takeWhile p).length

/-- Does the literal `pat` occur at index `i` of `cs`, comparing
case-insensitively? -/
def ciLitAt (cs pat : List Char) (i : Nat) : Bool :=
  pat.length + i ≤ cs.length &&
    (List.zip ((cs.drop i).take pat.length) pat).all (fun p => ciEq p.1 p.2)

/-- Does the literal `pat` occur (case-sensitively) at index `i` of `cs`? -/
def litAt (cs pat : List Char) (i : Nat) : Bool :=
  pat.length + i ≤ cs.length &&
    (List.zip ((cs.drop i).take pat.length) pat).all (fun p => p.1 = p.2)

/-- Python `sub in s` (substring containment). -/
def strContains (s pat : String) : Bool :=
  (List.range (s.data.length + 1)).any (fun i => litAt s.data pat.data i)

example : pySplit "  hello   world " = ["hello", "world"] := by decide
example : pyStrip " \t ab c \n" = "ab c" := by decide
example : strContains "xx(information only)yy" "(information only)" = true := by decide

/-! ### Regex models

The five compiled patterns of `final.py`, each modelled as an executable
matcher with Python `re` semantics (leftmost match, greedy quantifiers with
backtracking, `re.IGNORECASE` where the source sets it).  The lines fed to
these patterns never contain `'\n'` (they come from splitting a page text on
`'\n'`), so `.` = any character. -/

/-- `[A-Z]` under `re.IGNORECASE`: any ASCII letter. -/
def isAsciiLetter (c : Char) : Bool := ('A' ≤ c && c ≤ 'Z') || ('a' ≤ c && c ≤ 'z')

/-- `\d` (ASCII). -/
def isDigitC (c : Char) : Bool := '0' ≤ c && c ≤ '9'

/-- `\w` (ASCII). -/
def isWordC (c : Char) : Bool := isAsciiLetter c || isDigitC c || c = '_'

/-- The class `[_\s-]` of `GUID_PATTERN`. -/
def isGuidSep (c : Char) : Bool := c = '_' || pyIsSpace c || c = '-'

/-- The class `[\w-]` of `GUID_PATTERN`. -/
def isWordHyph (c : Char) : Bool := isWordC c || c = '-'

/-- Backtracking over the separator part `[_\s-]*` of `GUID_PATTERN`:
`q1` is the position after the letter run, `m` the number of separator
characters currently consumed (tried greedily, from the maximum down to 0);
the final `[\w-]+` must then match at least one character.  Returns the end
position of the whole match. -/
def guidTrySeps (cs : List Char) (q1 : Nat) : Nat → Option Nat
  | 0 =>
    let w := runLen isWordHyph cs q1
    if w ≥ 1 then some (q1 + w) else none
  | m + 1 =>
    let q2 := q1 + (m + 1)
    let w := runLen isWordHyph cs q2
    if w ≥ 1 then some (q2 + w) else guidTrySeps cs q1 m

/-- Backtracking over the letter part `[A-Z]+` of `GUID_PATTERN`:
`q` is the position after `CYS-`, `l` the number of letters currently
consumed (tried greedily, from the maximum down to 1). -/
def guidTryLetters (cs : List Char) (q : Nat) : Nat → Option Nat
  | 0 => none
  | l + 1 =>
    let q1 := q + (l + 1)
    match guidTrySeps cs q1 (runLen isGuidSep cs q1) with
    | some e => some e
    | none => guidTryLetters cs q l

/-- `GUID_PATTERN = r"CYS-[A-Z]+[_\s-]*[\w-]+"` with `re.IGNORECASE`,
matched at position `p`; returns the end position of the (leftmost-greedy)
match. -/
def guidMatchAt (cs : List Char) (p : Nat) : Option Nat :=
  if ciLitAt cs "cys-".data p then
    guidTryLetters cs (p + 4) (runLen isAsciiLetter cs (p + 4))
  else none

/-- `GUID_PATTERN.findall`: scan left to right, recording non-overlapping
matches and resuming at each match end (the pattern never matches the empty
string).  `fuel` bounds the scan; the wrapper supplies `cs.length + 1`. -/
def guidFindallAux (cs : List Char) : Nat → Nat → List String
  | _, 0 => []
  | p, fuel + 1 =>
    if p ≥ cs.length then []
    else match guidMatchAt cs p with
      | some e => String.mk ((cs.drop p).take (e - p)) :: guidFindallAux cs e fuel
      | none => guidFindallAux cs (p + 1) fuel

/-- `GUID_PATTERN.findall(line)`. -/
def guidFindall (s : String) : List String := guidFindallAux s.data 0 (s.data.length + 1)

/-- `GUID_PATTERN.search(line)` viewed as a Boolean. -/
def guidSearch (s : String) : Bool :=
  (List.range (s.data.length + 1)).any (fun p => (guidMatchAt s.data p).isSome)

example : guidFindall "GUID: CYS-HSM_ac0e60_133 end" = ["CYS-HSM_ac0e60_133"] := by decide
example : guidFindall "CYS-HSM_ ac0e60_133" = ["CYS-HSM_ ac0e60_133"] := by decide
example : guidFindall "see CYS-HSM" = ["CYS-HSM"] := by decide
example : guidFindall "nothing here" = [] := by decide
example : guidFindall "CYS-A_1 / CYS-B_2" = ["CYS-A_1", "CYS-B_2"] := by decide
example : guidSearch "x cys-she_9 x" = true := by decide

/-- `ANY_GUID_LINE = r".*GUID:\s*CYS-[A-Z]+[_\s-]*[\w-]+"` with
`re.IGNORECASE`, used through `.match` (anchored at the start; `.*` lets the
`GUID:` marker occur anywhere in the line). -/
def any_guid_line_match (s : String) : Bool :=
  (List.range (s.data.length + 1)).any (fun k =>
    ciLitAt s.data "guid:".data k &&
      (List.range (runLen pyIsSpace s.data (k + 5) + 1)).any (fun w =>
        (guidMatchAt s.data (k + 5 + w)).isSome))

/-- `HEADER_FOOTER = r"GM Confidential|Page \d+|^\s*\d+\s*$"` with
`re.IGNORECASE`, used through `.search`. -/
def header_footer_search (s : String) : Bool :=
  let cs := s.data
  (List.range (cs.length + 1)).any (fun k => ciLitAt cs "gm confidential".data k) ||
  (List.range (cs.length + 1)).any (fun k =>
    ciLitAt cs "page ".data k && (charAt cs (k + 5)).any isDigitC) ||
  (let t := cs.dropWhile pyIsSpace
   let d := t.takeWhile isDigitC
   d.length ≥ 1 && (t.drop d.length).all pyIsSpace)

/-- `TABLE_ROW = r"^\|.*\|$"`, used through `.match`. -/
def table_row_match (s : String) : Bool :=
  s.data.length ≥ 2 && s.data.headI = '|' && s.data.getLastD ' ' = '|'

/-- Positions reachable after `\d+(\.\d+)*` starting from `q`, a position
already known to close a digit run (group backtracking may stop inside a
digit run, so every non-empty prefix of each further `\.\d+` digit run is
reachable).  `fuel` bounds the group count; positions strictly increase, so
`cs.length + 1` suffices. -/
def headingReach (cs : List Char) : Nat → Nat → List Nat
  | q, 0 => [q]
  | q, fuel + 1 =>
    q :: (if charAt cs q = some '.' then
            let d := runLen isDigitC cs (q + 1)
            (List.range' 1 d).flatMap (fun t => headingReach cs (q + 1 + t) fuel)
          else [])

/-- `HEADING_WITH_GUID = r"^\d+(\.\d+)*\s+.*GUID:"` with `re.IGNORECASE`,
used through `.match`: outline numbering at the start, then at least one
whitespace character, then `GUID:` anywhere later. -/
def heading_with_guid_match (s : String) : Bool :=
  let cs := s.data
  let d0 := runLen isDigitC cs 0
  d0 ≥ 1 &&
    (List.range' 1 d0).any (fun t =>
      (headingReach cs t (cs.length + 1)).any (fun e =>
        runLen pyIsSpace cs e ≥ 1 &&
          (List.range (cs.length + 1)).any (fun k =>
            k ≥ e + 1 && ciLitAt cs "guid:".data k)))

example : guidFindall "CYS-" = [] := by decide
example : guidFindall "CYS-H" = [] := by decide
example : guidFindall "CYS-HSM_" = ["CYS-HSM_"] := by decide
example : guidFindall "CYS-HSM_ _ _x" = ["CYS-HSM_ _ _x"] := by decide
example : guidFindall "CYS-ABC- -def" = ["CYS-ABC- -def"] := by decide
example : guidFindall "cys-hsm- " = ["cys-hsm-"] := by decide
example : guidFindall "aCYS-HSM_12" = ["CYS-HSM_12"] := by decide
example : guidFindall "CYS-HSM CYS-SHE_1" = ["CYS-HSM CYS-SHE_1"] := by decide
example : guidFindall "GUID: CYS-HSM_ab1. More" = ["CYS-HSM_ab1"] := by decide
example : any_guid_line_match "GUID:CYS-HSM_1" = true := by decide
example : any_guid_line_match "CYS-HSM_ ac0e60_133" = false := by decide
example : table_row_match "|" = false := by decide
example : table_row_match "||" = true := by decide
example : header_footer_search "Page x" = false := by decide
example : header_footer_search "12a" = false := by decide
example : heading_with_guid_match "3.2.1 GUID:" = true := by decide
example : heading_with_guid_match "3. GUID:" = false := by decide
example : heading_with_guid_match "3.2 x GUID:" = true := by decide
example : heading_with_guid_match "3.2.1 Security GUID: CYS-HSM_1" = true := by decide
example : heading_with_guid_match "3 guid: x" = true := by decide
example : heading_with_guid_match "Requirement GUID: CYS-HSM_1" = false := by decide
example : table_row_match "| a | b |" = true := by decide
example : header_footer_search "  42  " = true := by decide
example : header_footer_search "on Page 9" = true := by decide
example : any_guid_line_match "see GUID: CYS-HSM_12" = true := by decide

/-! ### PDF parsing (`extract_requirements_from` and helpers)

A document is modelled as the list of its pages' raw texts, the external
`fitz` reader being out of scope.  The source splits each page text on
`'\n'`, strips each line and drops blank lines before scanning. -/

/-- `re.search(r"\b(\d+\.\d+\.\d+)\b", text)` attempted at position `p`:
word boundary, three digit runs separated by dots, word boundary.  The digit
runs are necessarily maximal (shortening a run leaves a digit where `'.'` or
a boundary is required), so no backtracking survives. -/
def cadenceMatchAt (cs : List Char) (p : Nat) : Option (List Char) :=
  let d1 := runLen isDigitC cs p
  let d2 := runLen isDigitC cs (p + d1 + 1)
  let d3 := runLen isDigitC cs (p + d1 + d2 + 2)
  let e := p + d1 + d2 + d3 + 2
  if (p = 0 || !(charAt cs (p - 1)).any isWordC) && d1 ≥ 1 &&
      charAt cs (p + d1) = some '.' && d2 ≥ 1 &&
      charAt cs (p + d1 + 1 + d2) = some '.' && d3 ≥ 1 &&
      (e = cs.length || !(charAt cs e).any isWordC) then
    some ((cs.drop p).take (e - p))
  else none

/-- `extract_cadence`: `'Cadence ' + m.group(1)` for the leftmost match of
the version pattern on the page text, else `'Cadence Unknown'`. -/
def extract_cadence (text : String) : String :=
  match (List.range (text.data.length + 1)).findSome? (cadenceMatchAt text.data) with
  | some m => "Cadence " ++ String.mk m
  | none => "Cadence Unknown"

example : extract_cadence "rel 22.22.142 x" = "Cadence 22.22.142" := by decide
example : extract_cadence "a1.2.3 and 7.8.9" = "Cadence 7.8.9" := by decide
example : extract_cadence "none" = "Cadence Unknown" := by decide

/-- `format_paragraph`: `" ".join(l.strip() for l in lines if l.strip())`. -/
def format_paragraph (lines : List String) : String :=
  String.intercalate " "
    (lines.filterMap (fun l => if pyStrip l = "" then none else some (pyStrip l)))

/-- One extracted draft record: the source appends the 5-element list
`[clean, info_type, detail_text, cadence, ""]` to `rows`. -/
structure ReqRow where
  guid : String
  info_type : String
  detail : String
  cadence : String
  service : String
deriving DecidableEq

/-- `re.sub(r"\s+", "", g)`: delete every whitespace character. -/
def subWsEmpty (s : String) : String := String.mk (s.data.filter (fun c => !pyIsSpace c))

/-- The detail filter of the inner loop: a non-GUID line is buffered iff it
matches none of `ANY_GUID_LINE`, `HEADER_FOOTER`, `TABLE_ROW`,
`HEADING_WITH_GUID`. -/
def detailKeep (nxt : String) : Bool :=
  !any_guid_line_match nxt && !header_footer_search nxt &&
    !table_row_match nxt && !heading_with_guid_match nxt

/-- The inner `while` loop of `extract_requirements_from`: starting after a
GUID line, collect detail lines until the next line containing the GUID
pattern (or the end of the page's lines).  Returns the collected details and
the remaining lines from the break point (`i = j` in the source). -/
def collectDetails : List String → List String × List String
  | [] => ([], [])
  | nxt :: rest =>
    if guidSearch nxt then ([], nxt :: rest)
    else
      let p := collectDetails rest
      (if detailKeep nxt then nxt :: p.1 else p.1, p.2)

/-- The records one GUID block contributes: none if the detail buffer is
empty, otherwise one record per `findall` occurrence, sharing the type tag
(`"Information"` iff the opening line contains `"(information only)"`
case-insensitively) and the joined detail text. -/
def blockRows (cadence line : String) (details : List String) : List ReqRow :=
  if details.isEmpty then []
  else
    (guidFindall line).map (fun g =>
      { guid := subWsEmpty g
        info_type :=
          if strContains (pyLower line) "(information only)" then "Information"
          else "Requirement"
        detail := format_paragraph details
        cadence := cadence
        service := "" })

/-- The outer `while i < len(lines)` loop over one page's lines, as
fuel-bounded recursion (each step consumes at least one line, so
`lines.length + 1` fuel is exact; see `extractLinesF_stable`). -/
def extractLinesF (cadence : String) : Nat → List String → List ReqRow
  | 0, _ => []
  | _ + 1, [] => []
  | fuel + 1, line :: rest =>
    if (guidFindall line).isEmpty then extractLinesF cadence fuel rest
    else
      blockRows cadence line (collectDetails rest).1 ++
        extractLinesF cadence fuel (collectDetails rest).2

/-- One page's extraction loop. -/
def extractLines (cadence : String) (lines : List String) : List ReqRow :=
  extractLinesF cadence (lines.length + 1) lines

/-- Python `text.split("\n")`: split at every newline, keeping empty
pieces. -/
def splitNlAux : List Char → List Char → List String
  | [], acc => [String.mk acc.reverse]
  | c :: cs, acc =>
    if c = '\n' then String.mk acc.reverse :: splitNlAux cs []
    else splitNlAux cs (c :: acc)

/-- Python `text.split("\n")`. -/
def splitNl (s : String) : List String := splitNlAux s.data []

/-- `[ln.strip() for ln in page.get_text().split("\n") if ln.strip()]`. -/
def pageLines (pageText : String) : List String :=
  (splitNl pageText).filterMap (fun ln => if pyStrip ln = "" then none else some (pyStrip ln))

/-- The `for page in doc` loop: `rows` accumulates each page's records in
order. -/
def extractAllPages (cadence : String) (pages : List String) : List ReqRow :=
  pages.foldl (fun rows p => rows ++ extractLines cadence (pageLines p)) []

/-- `extract_requirements_from`, on the page texts of a document.  An empty
document raises `IndexError` at `doc[0]`, caught by the handler which
returns `([], "Cadence Unknown")`. -/
def extract_requirements_from (pages : List String) : List ReqRow × String :=
  match pages with
  | [] => ([], "Cadence Unknown")
  | p0 :: _ => (extractAllPages (extract_cadence p0) pages, extract_cadence p0)

/-- The remaining lines returned by `collectDetails` form a suffix no longer
than the input. -/
theorem collectDetails_rem_length (ls : List String) :
    (collectDetails ls).2.length ≤ ls.length := by
  induction ls with
  | nil => simp [collectDetails]
  | cons x xs ih =>
    simp only [collectDetails]
    split
    · simp
    · simpa using Nat.le_succ_of_le ih

/-- Fuel irrelevance for the page loop: any two fuels exceeding the number
of lines compute the same value. -/
theorem extractLinesF_fuel (cadence : String) :
    ∀ f1 f2 ls, ls.length < f1 → ls.length < f2 →
      extractLinesF cadence f1 ls = extractLinesF cadence f2 ls := by
  intro f1
  induction f1 with
  | zero => intro f2 ls h _; exact absurd h (Nat.not_lt_zero _)
  | succ a ih =>
    intro f2 ls h1 h2
    match f2, ls with
    | 0, _ => exact absurd h2 (Nat.not_lt_zero _)
    | b + 1, [] => rfl
    | b + 1, line :: rest =>
      have ha : rest.length < a := Nat.lt_of_succ_lt_succ h1
      have hb : rest.length < b := Nat.lt_of_succ_lt_succ h2
      have hrem := collectDetails_rem_length rest
      simp only [extractLinesF]
      split
      · exact ih b rest ha hb
      · rw [ih b (collectDetails rest).2 (Nat.lt_of_le_of_lt hrem ha)
          (Nat.lt_of_le_of_lt hrem hb)]

/-- Any fuel exceeding the number of lines computes `extractLines`. -/
theorem extractLinesF_stable (cadence : String) (fuel : Nat) (ls : List String)
    (h : ls.length < fuel) : extractLinesF cadence fuel ls = extractLines cadence ls :=
  extractLinesF_fuel cadence fuel (ls.length + 1) ls h (Nat.lt_succ_self _)

/-- Unfolding equation for the page loop at a line containing no GUID
occurrence: the line is skipped. -/
theorem extractLines_cons_noguid (cadence line : String) (rest : List String)
    (h : (guidFindall line).isEmpty) :
    extractLines cadence (line :: rest) = extractLines cadence rest := by
  show extractLinesF cadence (rest.length + 1 + 1) (line :: rest) = _
  simp only [extractLinesF, h, if_pos]
  exact extractLinesF_stable cadence (rest.length + 1) rest (Nat.lt_succ_self _)

/-- Unfolding equation for the page loop at a GUID line: the block's rows
are emitted and scanning resumes at the line that closed the block. -/
theorem extractLines_cons_guid (cadence line : String) (rest : List String)
    (h : ¬(guidFindall line).isEmpty = true) :
    extractLines cadence (line :: rest) =
      blockRows cadence line (collectDetails rest).1 ++
        extractLines cadence (collectDetails rest).2 := by
  show extractLinesF cadence (rest.length + 1 + 1) (line :: rest) = _
  simp only [extractLinesF, h, if_neg, if_false]
  rw [extractLinesF_stable cadence (rest.length + 1) _
    (Nat.lt_succ_of_le (collectDetails_rem_length rest))]
  simp

example :
    extract_requirements_from
      ["GUID: CYS-HSM_ac0e60_133\nThe system shall authenticate the user.\nGUID: CYS-SHE_xx01"] =
    ([{ guid := "CYS-HSM_ac0e60_133", info_type := "Requirement",
        detail := "The system shall authenticate the user.", cadence := "Cadence Unknown",
        service := "" }], "Cadence Unknown") := by decide

example :
    extractLines "Cadence 1.0.0" ["GUID: CYS-HSM_1 (information only)", "Note text."] =
    [{ guid := "CYS-HSM_1", info_type := "Information", detail := "Note text.",
       cadence := "Cadence 1.0.0", service := "" }] := by decide

example :
    extractLines "Cadence 1.0.0" ["GUID: CYS-HSM_1", "first part", "| a | b |", "second part"] =
    [{ guid := "CYS-HSM_1", info_type := "Requirement", detail := "first part second part",
       cadence := "Cadence 1.0.0", service := "" }] := by decide

/-- Helper: turning `l ≠ []` into the Boolean form used by the unfolding
lemmas. -/
theorem ne_nil_isEmpty {α : Type} {l : List α} (h : l ≠ []) : ¬l.isEmpty = true := by
  cases l with
  | nil => exact absurd rfl h
  | cons a as => simp [List.isEmpty]

/-- C4.  A block whose detail buffer is empty when it is closed produces no
record, and in particular an Identifier line immediately followed by another
Identifier line yields no record for the first identifier. -/
theorem C4_empty_detail_block_yields_no_record :
    (∀ (cadence line : String) (rest : List String),
      guidFindall line ≠ [] → (collectDetails rest).1 = [] →
      extractLines cadence (line :: rest) = extractLines cadence (collectDetails rest).2) ∧
    (∀ (cadence l1 l2 : String) (rest : List String),
      guidFindall l1 ≠ [] → guidSearch l2 = true →
      extractLines cadence (l1 :: l2 :: rest) = extractLines cadence (l2 :: rest)) := by
  constructor
  · intro cadence line rest h hd
    rw [extractLines_cons_guid cadence line rest (ne_nil_isEmpty h)]
    simp [blockRows, hd]
  · intro cadence l1 l2 rest h hs
    have hcd : collectDetails (l2 :: rest) = ([], l2 :: rest) := by
      simp [collectDetails, hs]
    rw [extractLines_cons_guid cadence l1 (l2 :: rest) (ne_nil_isEmpty h), hcd]
    simp [blockRows]

/-- Witness for C4 at a concrete stream: `CYS-A_1`'s block is closed by the
following identifier line with an empty buffer, so only `CYS-B_2`'s block
emits. -/
theorem C4_witness :
    extractLines "Cadence 1.0.0" ["GUID: CYS-A_1", "GUID: CYS-B_2", "detail text"] =
      extractLines "Cadence 1.0.0" ["GUID: CYS-B_2", "detail text"] :=
  C4_empty_detail_block_yields_no_record.2 "Cadence 1.0.0" "GUID: CYS-A_1" "GUID: CYS-B_2"
    ["detail text"] (by decide) (by decide)

/-- With a non-empty detail buffer, `blockRows` is one record per `findall`
occurrence. -/
theorem blockRows_eq_map (cadence line : String) (details : List String)
    (h : details ≠ []) :
    blockRows cadence line details =
      (guidFindall line).map (fun g =>
        { guid := subWsEmpty g
          info_type :=
            if strContains (pyLower line) "(information only)" then "Information"
            else "Requirement"
          detail := format_paragraph details
          cadence := cadence
          service := "" }) := by
  simp only [blockRows, ne_nil_isEmpty h, if_neg, if_false, Bool.false_eq_true]

/-- C5.  A block whose opening line contains K identifier occurrences emits,
when its detail buffer is non-empty, exactly K draft records — one per
occurrence returned by `findall` — all sharing the same type tag and detail
text. -/
theorem C5_multi_identifier_fanout (cadence line : String) (rest : List String)
    (h1 : guidFindall line ≠ []) (h2 : (collectDetails rest).1 ≠ []) :
    extractLines cadence (line :: rest) =
      blockRows cadence line (collectDetails rest).1 ++
        extractLines cadence (collectDetails rest).2 ∧
    (blockRows cadence line (collectDetails rest).1).length = (guidFindall line).length ∧
    (∀ r1 r2, r1 ∈ blockRows cadence line (collectDetails rest).1 →
      r2 ∈ blockRows cadence line (collectDetails rest).1 →
      r1.info_type = r2.info_type ∧ r1.detail = r2.detail) ∧
    (∀ g, g ∈ guidFindall line →
      ∃ r ∈ blockRows cadence line (collectDetails rest).1, r.guid = subWsEmpty g) := by
  rw [blockRows_eq_map cadence line _ h2]
  refine ⟨?_, by simp, ?_, ?_⟩
  · rw [extractLines_cons_guid cadence line rest (ne_nil_isEmpty h1),
      blockRows_eq_map cadence line _ h2]
  · intro r1 r2 hr1 hr2
    rw [List.mem_map] at hr1 hr2
    obtain ⟨g1, _, e1⟩ := hr1
    obtain ⟨g2, _, e2⟩ := hr2
    rw [← e1, ← e2]
    exact ⟨rfl, rfl⟩
  · intro g hg
    exact ⟨_, List.mem_map.2 ⟨g, hg, rfl⟩, rfl⟩

/-- Witness for C5 on a legacy two-identifier line. -/
theorem C5_witness :
    extractLines "Cadence 1.0.0" ["GUID: CYS-A_1 / CYS-B_2", "shared detail"] =
      blockRows "Cadence 1.0.0" "GUID: CYS-A_1 / CYS-B_2"
          (collectDetails ["shared detail"]).1 ++
        extractLines "Cadence 1.0.0" (collectDetails ["shared detail"]).2 ∧
    (blockRows "Cadence 1.0.0" "GUID: CYS-A_1 / CYS-B_2"
        (collectDetails ["shared detail"]).1).length =
      (guidFindall "GUID: CYS-A_1 / CYS-B_2").length ∧
    (guidFindall "GUID: CYS-A_1 / CYS-B_2").length = 2 := by
  have h := C5_multi_identifier_fanout "Cadence 1.0.0" "GUID: CYS-A_1 / CYS-B_2"
    ["shared detail"] (by decide) (by decide)
  exact ⟨h.1, h.2.1, by decide⟩

/-- C8 counterexample.  A SectionHeading line (outline numbering plus the
`GUID:` keyword) whose text contains a full identifier occurrence DOES open
a requirement block: the outer loop consults only `GUID_PATTERN.findall`,
which is not guarded by `HEADING_WITH_GUID`.  The claim predicts no record
for this stream; the code emits one keyed by the heading's identifier. -/
theorem C8_counterexample :
    heading_with_guid_match "3.2.1 Intro GUID: CYS-HSM_ab1" = true ∧
    extractLines "Cadence 1.2.3" ["3.2.1 Intro GUID: CYS-HSM_ab1", "Some detail."] =
      [{ guid := "CYS-HSM_ab1", info_type := "Requirement", detail := "Some detail.",
         cadence := "Cadence 1.2.3", service := "" }] ∧
    extractLines "Cadence 1.2.3" ["3.2.1 Intro GUID: CYS-HSM_ab1", "Some detail."] ≠ [] := by
  refine ⟨by decide, by decide, by decide⟩

/-- C8 as amended.  A SectionHeading line never enters any block's detail
buffer; a SectionHeading line containing no full identifier occurrence opens
no block; but a SectionHeading line that does contain a full identifier
occurrence opens a block exactly like an Identifier line. -/
theorem C8_amended_heading_exclusion :
    (∀ (ls : List String) (l : String), l ∈ (collectDetails ls).1 →
      heading_with_guid_match l = false) ∧
    (∀ (cadence line : String) (rest : List String),
      heading_with_guid_match line = true → guidFindall line = [] →
      extractLines cadence (line :: rest) = extractLines cadence rest) ∧
    (∀ (cadence line : String) (rest : List String),
      heading_with_guid_match line = true → guidFindall line ≠ [] →
      extractLines cadence (line :: rest) =
        blockRows cadence line (collectDetails rest).1 ++
          extractLines cadence (collectDetails rest).2) := by
  refine ⟨?_, ?_, ?_⟩
  · intro ls
    induction ls with
    | nil => intro l h; simp [collectDetails] at h
    | cons nxt rest ih =>
      intro l h
      simp only [collectDetails] at h
      by_cases hg : guidSearch nxt
      · simp [hg] at h
      · simp only [hg, if_neg, if_false, Bool.false_eq_true] at h
        by_cases hk : detailKeep nxt = true
        · rw [if_pos hk] at h
          rcases List.mem_cons.1 h with rfl | hmem
          · cases hh : heading_with_guid_match l
            · rfl
            · exfalso
              rw [detailKeep, hh] at hk
              simp at hk
          · exact ih l hmem
        · rw [if_neg hk] at h
          exact ih l h
  · intro cadence line rest _ hempty
    exact extractLines_cons_noguid cadence line rest (by simp [hempty])
  · intro cadence line rest _ hne
    exact extractLines_cons_guid cadence line rest (ne_nil_isEmpty hne)

/-- Witness for C8 as amended: a heading without a full identifier is
transparent to the loop, and a heading between two detail lines is not
buffered. -/
theorem C8_amended_witness :
    extractLines "Cadence 1.0.0" ["3.2 Overview GUID:", "x"] =
      extractLines "Cadence 1.0.0" ["x"] ∧
    heading_with_guid_match "3.2 Overview GUID:" = true ∧
    (∀ l ∈ (collectDetails ["a", "3.2 Overview GUID:", "b"]).1,
      heading_with_guid_match l = false) ∧
    (collectDetails ["a", "3.2 Overview GUID:", "b"]).1 = ["a", "b"] := by
  refine ⟨C8_amended_heading_exclusion.2.1 "Cadence 1.0.0" "3.2 Overview GUID:" ["x"]
      (by decide) (by decide),
    by decide,
    fun l hl => C8_amended_heading_exclusion.1 ["a", "3.2 Overview GUID:", "b"] l hl,
    by decide⟩

/-- C9 counterexample.  The loop is per page: an Identifier line at the end
of one page with its details on the next page yields no record (the block is
closed, empty, at the page boundary), whereas the same line stream on a
single page yields the record.  The claim predicts both pagination choices
yield the record. -/
theorem C9_counterexample :
    extract_requirements_from ["GUID: CYS-HSM_ab1", "The system shall work."] =
      ([], "Cadence Unknown") ∧
    extract_requirements_from ["GUID: CYS-HSM_ab1\nThe system shall work."] =
      ([{ guid := "CYS-HSM_ab1", info_type := "Requirement",
          detail := "The system shall work.", cadence := "Cadence Unknown",
          service := "" }], "Cadence Unknown") := by
  exact ⟨by decide, by decide⟩

/-- C9 as amended.  Pages are processed independently, in document order,
and the per-document record list is the concatenation of the per-page
record lists; a block never survives a page boundary. -/
theorem C9_amended_pages_independent (cadence : String) (pages : List String) :
    extractAllPages cadence pages =
      (pages.map (fun p => extractLines cadence (pageLines p))).flatten := by
  suffices h : ∀ (acc : List ReqRow) (ps : List String),
      ps.foldl (fun rows p => rows ++ extractLines cadence (pageLines p)) acc =
        acc ++ (ps.map (fun p => extractLines cadence (pageLines p))).flatten by
    simpa using h [] pages
  intro acc ps
  induction ps generalizing acc with
  | nil => simp
  | cons p ps ih => simp [ih]

/-! ### difflib: `SequenceMatcher`

A faithful model of CPython `difflib.SequenceMatcher` as `highlight_diff`
uses it, generic in the element type (`String` for word-level diffs, `Char`
for the intraline passes).  Dictionaries are association lists whose lookup
returns the most recent binding; float ratios are exact
numerator/denominator pairs (`_calculate_ratio` only ever produces positive
denominators, so comparisons are cross multiplications). -/

/-- Association-list lookup (Python `dict` access; the most recent binding
is first). -/
def alookup {α β : Type} [DecidableEq α] : List (α × β) → α → Option β
  | [], _ => none
  | (k, v) :: rest, x => if k = x then some v else alookup rest x

/-- `difflib.Match`: `(a, b, size)` meaning `a[a:a+size] == b[b:b+size]`. -/
structure PyMatch where
  a : Nat
  b : Nat
  size : Nat
deriving DecidableEq

/-- One entry of `get_opcodes`: `(tag, i1, i2, j1, j2)`. -/
structure Opcode where
  tag : String
  a1 : Nat
  a2 : Nat
  b1 : Nat
  b2 : Nat
deriving DecidableEq

/-- `__chain_b`, first pass: `b2j[elt]` = ascending indices of `elt` in `b`
(`setdefault` + `append`). -/
def b2jAdd {α : Type} [DecidableEq α] : List (α × List Nat) → α → Nat → List (α × List Nat)
  | [], x, i => [(x, [i])]
  | (y, js) :: rest, x, i =>
    if y = x then (y, js ++ [i]) :: rest else (y, js) :: b2jAdd rest x i

/-- `__chain_b`, the raw index map before junk removal. -/
def b2jRaw {α : Type} [DecidableEq α] (b : List α) : List (α × List Nat) :=
  (b.enum).foldl (fun m p => b2jAdd m p.2 p.1) []

/-- `__chain_b`: purge junk keys, then (autojunk, active for `len(b) ≥ 200`)
purge popular keys occurring more than `n // 100 + 1` times. -/
def b2jOf {α : Type} [DecidableEq α] (isjunk : α → Bool) (b : List α) : List (α × List Nat) :=
  let nojunk := (b2jRaw b).filter (fun p => !isjunk p.1)
  if b.length ≥ 200 then
    nojunk.filter (fun p => !(p.2.length > b.length / 100 + 1))
  else nojunk

/-- `find_longest_match`, inner loop over `b2j.get(a[i], [])`: `continue` on
`j < blo`, `break` on `j >= bhi`; `newj2len[j] = j2len.get(j-1, 0) + 1`
(in Python `j-1` may be `-1`, absent from the dict, modelled by the `j = 0`
case). -/
def flmInner (blo bhi i : Nat) (j2len : List (Nat × Nat)) :
    List Nat → List (Nat × Nat) → PyMatch → List (Nat × Nat) × PyMatch
  | [], newj2len, best => (newj2len, best)
  | j :: js, newj2len, best =>
    if j < blo then flmInner blo bhi i j2len js newj2len best
    else if bhi ≤ j then (newj2len, best)
    else
      let k := (if j = 0 then 0 else (alookup j2len (j - 1)).getD 0) + 1
      let best := if k > best.size then ⟨i + 1 - k, j + 1 - k, k⟩ else best
      flmInner blo bhi i j2len js ((j, k) :: newj2len) best

/-- `find_longest_match`, outer loop over `i in range(alo, ahi)`. -/
def flmMain {α : Type} [DecidableEq α] [Inhabited α] (a : List α)
    (b2jm : List (α × List Nat)) (blo bhi : Nat) :
    List Nat → List (Nat × Nat) → PyMatch → PyMatch
  | [], _, best => best
  | i :: is, j2len, best =>
    let r := flmInner blo bhi i j2len ((alookup b2jm (a.getD i default)).getD []) [] best
    flmMain a b2jm blo bhi is r.1 r.2

/-- First extension `while` of `find_longest_match`: grow the match downward
over equal non-junk elements.  Each step decrements `best.a`, so fuel
`best.a` is exact (when fuel runs out the guard is false anyway). -/
def extLoNoJunk {α : Type} [DecidableEq α] [Inhabited α] (isjunk : α → Bool)
    (a b : List α) (alo blo : Nat) : Nat → PyMatch → PyMatch
  | 0, best => best
  | fuel + 1, best =>
    if alo < best.a && blo < best.b && !isjunk (b.getD (best.b - 1) default) &&
        decide (a.getD (best.a - 1) default = b.getD (best.b - 1) default) then
      extLoNoJunk isjunk a b alo blo fuel ⟨best.a - 1, best.b - 1, best.size + 1⟩
    else best

/-- Second extension `while`: grow the match upward over equal non-junk
elements; fuel `ahi` bounds the growth. -/
def extHiNoJunk {α : Type} [DecidableEq α] [Inhabited α] (isjunk : α → Bool)
    (a b : List α) (ahi bhi : Nat) : Nat → PyMatch → PyMatch
  | 0, best => best
  | fuel + 1, best =>
    if best.a + best.size < ahi && best.b + best.size < bhi &&
        !isjunk (b.getD (best.b + best.size) default) &&
        decide (a.getD (best.a + best.size) default = b.getD (best.b + best.size) default) then
      extHiNoJunk isjunk a b ahi bhi fuel ⟨best.a, best.b, best.size + 1⟩
    else best

/-- Third extension `while`: grow downward over equal junk elements. -/
def extLoJunk {α : Type} [DecidableEq α] [Inhabited α] (isjunk : α → Bool)
    (a b : List α) (alo blo : Nat) : Nat → PyMatch → PyMatch
  | 0, best => best
  | fuel + 1, best =>
    if alo < best.a && blo < best.b && isjunk (b.getD (best.b - 1) default) &&
        decide (a.getD (best.a - 1) default = b.getD (best.b - 1) default) then
      extLoJunk isjunk a b alo blo fuel ⟨best.a - 1, best.b - 1, best.size + 1⟩
    else best

/-- Fourth extension `while`: grow upward over equal junk elements. -/
def extHiJunk {α : Type} [DecidableEq α] [Inhabited α] (isjunk : α → Bool)
    (a b : List α) (ahi bhi : Nat) : Nat → PyMatch → PyMatch
  | 0, best => best
  | fuel + 1, best =>
    if best.a + best.size < ahi && best.b + best.size < bhi &&
        isjunk (b.getD (best.b + best.size) default) &&
        decide (a.getD (best.a + best.size) default = b.getD (best.b + best.size) default) then
      extHiJunk isjunk a b ahi bhi fuel ⟨best.a, best.b, best.size + 1⟩
    else best

/-- `find_longest_match(alo, ahi, blo, bhi)` (with `b2j` precomputed by
`__chain_b`, as `set_seq2` does). -/
def find_longest_match {α : Type} [DecidableEq α] [Inhabited α] (isjunk : α → Bool)
    (a b : List α) (b2jm : List (α × List Nat)) (alo ahi blo bhi : Nat) : PyMatch :=
  let best := flmMain a b2jm blo bhi (List.range' alo (ahi - alo)) [] ⟨alo, blo, 0⟩
  let best := extLoNoJunk isjunk a b alo blo best.a best
  let best := extHiNoJunk isjunk a b ahi bhi ahi best
  let best := extLoJunk isjunk a b alo blo best.a best
  let best := extHiJunk isjunk a b ahi bhi ahi best
  best

/-- The `while queue` loop of `get_matching_blocks`; the queue is a stack
(`list.pop()` takes the most recently appended region).  `k ≠ 0` shrinks
the total region size by at least 2, so fuel `la + lb + 1` is exact. -/
def mbQueue {α : Type} [DecidableEq α] [Inhabited α] (isjunk : α → Bool)
    (a b : List α) (b2jm : List (α × List Nat)) :
    Nat → List (Nat × Nat × Nat × Nat) → List PyMatch → List PyMatch
  | 0, _, acc => acc
  | _ + 1, [], acc => acc
  | fuel + 1, (alo, ahi, blo, bhi) :: queue, acc =>
    let x := find_longest_match isjunk a b b2jm alo ahi blo bhi
    if x.size ≠ 0 then
      let q1 := if alo < x.a && blo < x.b then (alo, x.a, blo, x.b) :: queue else queue
      let q2 :=
        if x.a + x.size < ahi && x.b + x.size < bhi then
          (x.a + x.size, ahi, x.b + x.size, bhi) :: q1
        else q1
      mbQueue isjunk a b b2jm fuel q2 (acc ++ [x])
    else mbQueue isjunk a b b2jm fuel queue acc

/-- Python tuple ordering on `(a, b, size)` triples (`matching_blocks.sort()`). -/
def matchLe (x y : PyMatch) : Prop :=
  x.a < y.a ∨ (x.a = y.a ∧ (x.b < y.b ∨ (x.b = y.b ∧ x.size ≤ y.size)))

instance : DecidableRel matchLe := fun x y => by unfold matchLe; infer_instance

instance : IsTotal PyMatch matchLe :=
  ⟨fun x y => by unfold matchLe; omega⟩

instance : IsTrans PyMatch matchLe :=
  ⟨fun x y z hxy hyz => by unfold matchLe at *; omega⟩

/-- The adjacent-block collapsing loop of `get_matching_blocks`: `cur` is
`(i1, j1, k1)`, emitted when the next block is not adjacent and `k1 ≠ 0`. -/
def collapseGo : PyMatch → List PyMatch → List PyMatch
  | cur, [] => if cur.size ≠ 0 then [cur] else []
  | cur, x :: rest =>
    if cur.a + cur.size = x.a ∧ cur.b + cur.size = x.b then
      collapseGo ⟨cur.a, cur.b, cur.size + x.size⟩ rest
    else (if cur.size ≠ 0 then [cur] else []) ++ collapseGo x rest

/-- `get_matching_blocks`: queue, sort, collapse, sentinel `(la, lb, 0)`.
Python's sort is stable, but the blocks are pairwise disjoint, so any sort
for the same tuple order yields the same list; an insertion sort is used. -/
def get_matching_blocks {α : Type} [DecidableEq α] [Inhabited α] (isjunk : α → Bool)
    (a b : List α) : List PyMatch :=
  let raw := mbQueue isjunk a b (b2jOf isjunk b) (a.length + b.length + 1)
    [(0, a.length, 0, b.length)] []
  collapseGo ⟨0, 0, 0⟩ (List.insertionSort matchLe raw) ++ [⟨a.length, b.length, 0⟩]

/-- `get_opcodes`, cursor walk over the matching blocks. -/
def opcodesGo : Nat → Nat → List PyMatch → List Opcode
  | _, _, [] => []
  | i, j, x :: rest =>
    let tag :=
      if i < x.a ∧ j < x.b then "replace"
      else if i < x.a then "delete"
      else if j < x.b then "insert"
      else ""
    (if tag ≠ "" then [⟨tag, i, x.a, j, x.b⟩] else []) ++
      (if x.size ≠ 0 then [⟨"equal", x.a, x.a + x.size, x.b, x.b + x.size⟩] else []) ++
      opcodesGo (x.a + x.size) (x.b + x.size) rest

/-- `get_opcodes`. -/
def get_opcodes {α : Type} [DecidableEq α] [Inhabited α] (isjunk : α → Bool)
    (a b : List α) : List Opcode :=
  opcodesGo 0 0 (get_matching_blocks isjunk a b)

/-- `_calculate_ratio(matches, length)` as an exact fraction
(`2.0 * matches / length`, or `1.0` when `length == 0`). -/
def calcRatioFrac (ms len : Nat) : Nat × Nat :=
  if len = 0 then (1, 1) else (2 * ms, len)

/-- `p > q` on exact fractions with positive denominators. -/
def fracGtF (p q : Nat × Nat) : Bool := p.1 * q.2 > q.1 * p.2

/-- `p < q` on exact fractions with positive denominators. -/
def fracLtF (p q : Nat × Nat) : Bool := p.1 * q.2 < q.1 * p.2

/-- `SequenceMatcher.ratio()`: twice the total matched size over the total
length. -/
def ratioFrac {α : Type} [DecidableEq α] [Inhabited α] (isjunk : α → Bool)
    (a b : List α) : Nat × Nat :=
  calcRatioFrac (((get_matching_blocks isjunk a b).map PyMatch.size).sum)
    (a.length + b.length)

/-- The `for elt in a` loop of `quick_ratio` (`avail` holds signed
availability counts). -/
def quickAvailLoop {α : Type} [DecidableEq α] (b : List α) :
    List α → List (α × Int) → Nat → Nat
  | [], _, ms => ms
  | x :: xs, avail, ms =>
    let numb : Int :=
      match alookup avail x with
      | some n => n
      | none => (b.count x : Int)
    quickAvailLoop b xs ((x, numb - 1) :: avail)
      (if numb > 0 then ms + 1 else ms)

/-- `SequenceMatcher.quick_ratio()`. -/
def quickRatioFrac {α : Type} [DecidableEq α] (a b : List α) : Nat × Nat :=
  calcRatioFrac (quickAvailLoop b a [] 0) (a.length + b.length)

/-- `SequenceMatcher.real_quick_ratio()`. -/
def realQuickRatioFrac {α : Type} (a b : List α) : Nat × Nat :=
  calcRatioFrac (min a.length b.length) (a.length + b.length)

example :
    get_matching_blocks (fun _ => false) "abxcd".data "abcd".data =
      [⟨0, 0, 2⟩, ⟨3, 2, 2⟩, ⟨5, 4, 0⟩] := by decide

example :
    get_opcodes (fun _ => false) "qabxcd".data "abycdf".data =
      [⟨"delete", 0, 1, 0, 0⟩, ⟨"equal", 1, 3, 0, 2⟩, ⟨"replace", 3, 4, 2, 3⟩,
       ⟨"equal", 4, 6, 3, 5⟩, ⟨"insert", 6, 6, 5, 6⟩] := by decide

example : ratioFrac (fun _ => false) "abcd".data "bcde".data = (6, 8) := by decide

/-! ### difflib: `Differ` and `ndiff`

`ndiff(a, b)` is `Differ(None, IS_CHARACTER_JUNK).compare(a, b)`: word-level
opcodes from a junk-free `SequenceMatcher`, with `_fancy_replace` searching
replaced ranges for similar word pairs (character-level ratios with
whitespace as junk) and emitting intraline `? ` hint lines via `_qformat`. -/

/-- `IS_CHARACTER_JUNK`: space or tab. -/
def charJunk (c : Char) : Bool := c = ' ' || c = '\t'

/-- The `linejunk=None` top level: nothing is junk. -/
def noJunk (_ : String) : Bool := false

/-- `Differ._dump(tag, x, lo, hi)`: `'%s %s' % (tag, x[i])` for each index. -/
def dumpTag (tag : String) (x : List String) (lo hi : Nat) : List String :=
  ((x.drop lo).take (hi - lo)).map (fun e => tag ++ " " ++ e)

/-- `Differ._plain_replace`: dump the shorter block first. -/
def plainReplace (a b : List String) (alo ahi blo bhi : Nat) : List String :=
  if bhi - blo < ahi - alo then dumpTag "+" b blo bhi ++ dumpTag "-" a alo ahi
  else dumpTag "-" a alo ahi ++ dumpTag "+" b blo bhi

/-- The search state of `_fancy_replace`: the best similarity seen
(starting at the `0.74` floor), its indices, and the first identical pair. -/
structure FancyState where
  bestRatio : Nat × Nat
  best : Option (Nat × Nat)
  eqij : Option (Nat × Nat)
deriving DecidableEq

/-- The double loop of `_fancy_replace` searching for the closest
non-identical pair (`real_quick_ratio`, `quick_ratio`, `ratio` short-circuit
chain against the best ratio so far) and the first identical pair. -/
def fancySearch (a b : List String) (alo ahi blo bhi : Nat) : FancyState :=
  (List.range' blo (bhi - blo)).foldl (fun st j =>
    (List.range' alo (ahi - alo)).foldl (fun st i =>
      let ai := a.getD i ""
      let bj := b.getD j ""
      if ai = bj then
        if st.eqij.isNone then { st with eqij := some (i, j) } else st
      else if fracGtF (realQuickRatioFrac ai.data bj.data) st.bestRatio &&
          fracGtF (quickRatioFrac ai.data bj.data) st.bestRatio &&
          fracGtF (ratioFrac charJunk ai.data bj.data) st.bestRatio then
        { st with bestRatio := ratioFrac charJunk ai.data bj.data, best := some (i, j) }
      else st) st)
    ⟨(74, 100), none, none⟩

/-- `String` of `n` copies of `c` (`'^' * la` and friends). -/
def repChar (c : Char) (n : Nat) : String := String.mk (List.replicate n c)

/-- The tag-building loop of `_fancy_replace`: character-level opcodes of
the synch pair rendered as `'^'`/`'-'`/`'+'`/`' '` columns. -/
def tagsFold (aelt belt : String) : String × String :=
  (get_opcodes charJunk aelt.data belt.data).foldl (fun (p : String × String) op =>
    if op.tag = "replace" then
      (p.1 ++ repChar '^' (op.a2 - op.a1), p.2 ++ repChar '^' (op.b2 - op.b1))
    else if op.tag = "delete" then (p.1 ++ repChar '-' (op.a2 - op.a1), p.2)
    else if op.tag = "insert" then (p.1, p.2 ++ repChar '+' (op.b2 - op.b1))
    else (p.1 ++ repChar ' ' (op.a2 - op.a1), p.2 ++ repChar ' ' (op.b2 - op.b1)))
    ("", "")

/-- `_keep_original_ws(s, tag_s)`: keep the line's own whitespace where the
tag column is blank. -/
def keepOriginalWs (s tags : String) : String :=
  String.mk ((s.data.zip tags.data).map
    (fun p => if p.2 = ' ' && pyIsSpace p.1 then p.1 else p.2))

/-- `Differ._qformat`: the `- aline / ? atags / + bline / ? btags` quad,
hint lines kept only when their tags survive `rstrip`. -/
def qformat (aline bline : String) : List String :=
  let ts := tagsFold aline bline
  let atags := pyRstrip (keepOriginalWs aline ts.1)
  let btags := pyRstrip (keepOriginalWs bline ts.2)
  ["- " ++ aline] ++ (if atags ≠ "" then ["? " ++ atags ++ "\n"] else []) ++
    ["+ " ++ bline] ++ (if btags ≠ "" then ["? " ++ btags ++ "\n"] else [])

/-- `Differ._fancy_replace`, with `_fancy_helper` inlined at its two call
sites (`_fancy_helper` recurses into `_fancy_replace` only when both
sub-ranges are non-empty, else dumps).  Structurally recursive on `fuel`;
each nested call shrinks `(ahi - alo) + (bhi - blo)` by at least 2, so the
caller's fuel `(ahi - alo) + (bhi - blo)` is exact.  The two `.getD (0, 0)`
fallbacks are unreachable: a best ratio above the `0.74` floor implies an
update, and the identical branch is guarded by `eqij.isSome`. -/
def fancyReplaceF : Nat → List String → List String → Nat → Nat → Nat → Nat → List String
  | 0, _, _, _, _, _, _ => []
  | fuel + 1, a, b, alo, ahi, blo, bhi =>
    let st := fancySearch a b alo ahi blo bhi
    if fracLtF st.bestRatio (75, 100) && st.eqij.isNone then
      plainReplace a b alo ahi blo bhi
    else
      let identical := fracLtF st.bestRatio (75, 100)
      let ij := if identical then st.eqij.getD (0, 0) else st.best.getD (0, 0)
      let bi := ij.1
      let bj := ij.2
      let middle :=
        if identical then ["  " ++ a.getD bi ""]
        else qformat (a.getD bi "") (b.getD bj "")
      (if alo < bi then
        (if blo < bj then fancyReplaceF fuel a b alo bi blo bj else dumpTag "-" a alo bi)
       else if blo < bj then dumpTag "+" b blo bj else []) ++
      middle ++
      (if bi + 1 < ahi then
        (if bj + 1 < bhi then fancyReplaceF fuel a b (bi + 1) ahi (bj + 1) bhi
         else dumpTag "-" a (bi + 1) ahi)
       else if bj + 1 < bhi then dumpTag "+" b (bj + 1) bhi else [])

/-- The per-opcode dispatch of `Differ.compare(a, b)`. -/
def diffOp (a b : List String) (op : Opcode) : List String :=
  if op.tag = "replace" then
    fancyReplaceF ((op.a2 - op.a1) + (op.b2 - op.b1)) a b op.a1 op.a2 op.b1 op.b2
  else if op.tag = "delete" then dumpTag "-" a op.a1 op.a2
  else if op.tag = "insert" then dumpTag "+" b op.b1 op.b2
  else dumpTag " " a op.a1 op.a2

/-- `Differ.compare(a, b)` on word lists: dispatch on the word-level
opcodes. -/
def differCompareWords (a b : List String) : List String :=
  (get_opcodes noJunk a b).flatMap (diffOp a b)

/-- `difflib.ndiff(a, b)` on word lists (`linejunk=None`,
`charjunk=IS_CHARACTER_JUNK`). -/
def ndiffW (a b : List String) : List String := differCompareWords a b

/-- Python `s.startswith(pat)` (character-based). -/
def pyStartsWith (s pat : String) : Bool := pat.data.isPrefixOf s.data

/-- Python `s[n:]` (character-based). -/
def pyDrop (s : String) (n : Nat) : String := String.mk (s.data.drop n)

/-- `highlight_diff(old, new)` from `final.py`:
`" ".join(f"*{w[2:]}*" if w.startswith("+ ") else w[2:] for w in diff
if not w.startswith("- "))`. -/
def highlight_diff (old new : String) : String :=
  String.intercalate " "
    (((ndiffW (pySplit old) (pySplit new)).filter
        (fun w => !pyStartsWith w "- ")).map
      (fun w => if pyStartsWith w "+ " then "*" ++ pyDrop w 2 ++ "*" else pyDrop w 2))

example :
    highlight_diff "The system shall log events." "The system shall log all events." =
      "The system shall log *all* events." := by decide

example : highlight_diff "events." "events" = "      -\n *events*" := by decide
example : highlight_diff "hello there" "hello world" = "hello *world*" := by decide
example :
    highlight_diff "hello *world*" "hello world" = "hello -     -\n *world*" := by decide
example : highlight_diff "a" "b" = "*b*" := by decide
example : highlight_diff "*a*" "a" = "*a*" := by decide
example :
    highlight_diff "the quick brown fox" "the quick red fox jumps" =
      "the quick *red* fox *jumps*" := by decide
example : highlight_diff "alpha beta gamma" "alpha gamma beta" = "alpha *gamma* beta" := by decide
example : highlight_diff "abc def" "abd ghi" = "*abd* *ghi*" := by decide
example : highlight_diff "one two three four" "one three two four" = "one *three* two four" := by decide
example : highlight_diff "x" "" = "" := by decide
example : highlight_diff "" "y" = "*y*" := by decide
example : highlight_diff "same same" "same same" = "same same" := by decide
example : highlight_diff "aa bb cc" "aa bc cc" = "aa *bc* cc" := by decide

/-! ### Excel model: `save_to_excel`

The worksheet is a grid of cell values (row-major, 1-based coordinates as in
openpyxl); a missing cell reads as `""` (modelling `None`, see the header
comment).  Styling, column widths, the file-lock retry loop and the message
boxes are cosmetic or interactive and out of scope.  `updating` models
`updating and os.path.exists(out_path)`.  The dictionary lookups
`col_index[...]` can raise `KeyError` when an existing workbook lacks a
fixed column, so the model returns `Option Ws`. -/

structure Ws where
  grid : List (List String)
deriving DecidableEq

/-- `ws.cell(r, c).value` (1-based; missing cells read `""`). -/
def getCell (ws : Ws) (r c : Nat) : String :=
  (ws.grid.getD (r - 1) []).getD (c - 1) ""

/-- Set index `i` (0-based) of a row, padding with empty cells. -/
def setIdx (l : List String) (i : Nat) (v : String) : List String :=
  (l ++ List.replicate (i + 1 - l.length) "").set i v

/-- `ws.cell(r, c).value = v` (1-based; creates the row and cell as
openpyxl does). -/
def setCell (ws : Ws) (r c : Nat) (v : String) : Ws :=
  let grid := ws.grid ++ List.replicate (r - ws.grid.length) []
  ⟨grid.set (r - 1) (setIdx (grid.getD (r - 1) []) (c - 1) v)⟩

/-- `ws.max_row`. -/
def maxRow (ws : Ws) : Nat := ws.grid.length

/-- `ws.max_column`. -/
def maxCol (ws : Ws) : Nat := (ws.grid.map List.length).foldr max 0

/-- `header = [c.value for c in ws[1]]`: the first row padded to
`max_column`. -/
def wsHeader (ws : Ws) : List String :=
  ws.grid.headD [] ++ List.replicate (maxCol ws - (ws.grid.headD []).length) ""

/-- `guid_row = {ws.cell(r, 1).value: r for r in range(2, ws.max_row + 1)}`;
later rows overwrite, and the model prepends so that `alookup` returns the
most recent binding. -/
def guid_row_init (ws : Ws) : List (String × Nat) :=
  (List.range' 2 (maxRow ws - 1)).foldl (fun m r => (getCell ws r 1, r) :: m) []

/-- `col_index = {h: i + 1 for i, h in enumerate(header)}`: the last
occurrence wins (later assignments overwrite); `none` models `KeyError`. -/
def colIndex (h : List String) (name : String) : Option Nat :=
  match h.reverse.findIdx? (fun x => x = name) with
  | some k => some (h.length - k)
  | none => none

/-- Append a header column when missing
(`header.append(...)`; `ws.cell(row=1, column=len(header)).value = ...`). -/
def ensureHeaderCol (p : List String × Ws) (name : String) : List String × Ws :=
  if name ∈ p.1 then p else (p.1 ++ [name], setCell p.2 1 (p.1.length + 1) name)

/-- `for *_, cadence, _ in rows: if cadence not in header: ...`. -/
def ensureCadenceCols (rows : List ReqRow) (p : List String × Ws) : List String × Ws :=
  rows.foldl (fun p row => ensureHeaderCol p row.cadence) p

/-- `new_val = detail if prev == "" else highlight_diff(prev, detail)
if prev != detail else prev`. -/
def newVal (prev detail : String) : String :=
  if prev = "" then detail else if prev ≠ detail then highlight_diff prev detail else prev

/-- `if ws.cell(r, service_col).value in (None, ""):
ws.cell(r, service_col).value = service`. -/
def svcFill (ws : Ws) (r sc : Nat) (s : String) : Ws :=
  if getCell ws r sc = "" then setCell ws r sc s else ws

/-- The body of the `for guid, info_type, detail, cadence, service in rows`
loop: find or create the identifier's row, write the cadence cell (verbatim
when empty, unchanged when equal, `highlight_diff(prev, detail)` otherwise),
then fill the service cell if blank. -/
def mergeStep (header : List String) (serviceCol : Nat)
    (st : Ws × List (String × Nat)) (row : ReqRow) : Option (Ws × List (String × Nat)) :=
  match colIndex header row.cadence with
  | none => none
  | some c =>
    let rc : Option (Nat × Ws × List (String × Nat)) :=
      match alookup st.2 row.guid with
      | some r => some (r, st.1, st.2)
      | none =>
        match colIndex header "Requirement ID", colIndex header "Requirement/Information" with
        | some c1, some c2 =>
          let r := maxRow st.1 + 1
          let ws := setCell st.1 r c1 row.guid
          let ws := setCell ws r c2 row.info_type
          some (r, ws, (row.guid, r) :: st.2)
        | _, _ => none
    match rc with
    | none => none
    | some (r, ws, gm) =>
      let ws := setCell ws r c (newVal (getCell ws r c) row.detail)
      some (svcFill ws r serviceCol row.service, gm)

/-- The whole row loop. -/
def mergeRows (header : List String) (serviceCol : Nat) :
    Ws × List (String × Nat) → List ReqRow → Option (Ws × List (String × Nat))
  | st, [] => some st
  | st, row :: rest =>
    match mergeStep header serviceCol st row with
    | none => none
    | some st2 => mergeRows header serviceCol st2 rest

/-- A fresh workbook after `ws.append(header)`. -/
def freshWs : Ws := ⟨[["Requirement ID", "Requirement/Information"]]⟩

/-- `save_to_excel(rows, out_path, updating)`. -/
def save_to_excel (rows : List ReqRow) (ws0 : Ws) (updating : Bool) : Option Ws :=
  let start : (List String × Ws) × List (String × Nat) :=
    if updating then ((wsHeader ws0, ws0), guid_row_init ws0)
    else ((["Requirement ID", "Requirement/Information"], freshWs), [])
  let p := ensureCadenceCols rows start.1
  let p := ensureHeaderCol p "HSE Service"
  match colIndex p.1 "HSE Service" with
  | none => none
  | some serviceCol =>
    match mergeRows p.1 serviceCol (p.2, start.2) rows with
    | none => none
    | some st => some st.1

example :
    save_to_excel [{ guid := "CYS-X_1", info_type := "Requirement", detail := "detail text",
                     cadence := "Cadence 1.0.0", service := "" }] freshWs false =
      some ⟨[["Requirement ID", "Requirement/Information", "Cadence 1.0.0", "HSE Service"],
             ["CYS-X_1", "Requirement", "detail text", ""]]⟩ := by decide

example :
    save_to_excel
      [{ guid := "CYS-X_1", info_type := "Requirement", detail := "d1",
         cadence := "Cadence 1.0.0", service := "" },
       { guid := "CYS-X_1", info_type := "Information", detail := "d2",
         cadence := "Cadence 2.0.0", service := "sv" }] freshWs false =
      some ⟨[["Requirement ID", "Requirement/Information", "Cadence 1.0.0", "Cadence 2.0.0",
              "HSE Service"],
             ["CYS-X_1", "Requirement", "d1", "d2", "sv"]]⟩ := by decide

/-- C2 counterexample.  Merging the one-draft set
`{CYS-X_1, "hello world", Cadence 1.0.0}` into a table whose target cell
holds `"hello there"` once stores `highlight_diff("hello there", "hello
world") = "hello *world*"`; merging the same set a second time re-diffs the
annotated cell (`prev ≠ detail`) and stores
`highlight_diff("hello *world*", "hello world")`, which carries an intraline
hint artifact — the two results differ, so merging twice is not merging
once. -/
theorem C2_counterexample :
    save_to_excel
        [{ guid := "CYS-X_1", info_type := "Requirement", detail := "hello world",
           cadence := "Cadence 1.0.0", service := "" }]
        ⟨[["Requirement ID", "Requirement/Information", "Cadence 1.0.0", "HSE Service"],
          ["CYS-X_1", "Requirement", "hello there", ""]]⟩ true =
      some ⟨[["Requirement ID", "Requirement/Information", "Cadence 1.0.0", "HSE Service"],
             ["CYS-X_1", "Requirement", "hello *world*", ""]]⟩ ∧
    save_to_excel
        [{ guid := "CYS-X_1", info_type := "Requirement", detail := "hello world",
           cadence := "Cadence 1.0.0", service := "" }]
        ⟨[["Requirement ID", "Requirement/Information", "Cadence 1.0.0", "HSE Service"],
          ["CYS-X_1", "Requirement", "hello *world*", ""]]⟩ true =
      some ⟨[["Requirement ID", "Requirement/Information", "Cadence 1.0.0", "HSE Service"],
             ["CYS-X_1", "Requirement", "hello -     -\n *world*", ""]]⟩ ∧
    (⟨[["Requirement ID", "Requirement/Information", "Cadence 1.0.0", "HSE Service"],
       ["CYS-X_1", "Requirement", "hello *world*", ""]]⟩ : Ws) ≠
      ⟨[["Requirement ID", "Requirement/Information", "Cadence 1.0.0", "HSE Service"],
        ["CYS-X_1", "Requirement", "hello -     -\n *world*", ""]]⟩ := by
  refine ⟨by decide, by decide, by decide⟩

/-- C10 counterexample.  The cleaning step `re.sub(r"\s+", "", g)` removes
whitespace but does not normalize case, so `CYS-HSM_1` and `cys-hsm_1` —
two raw occurrences differing only in letter case — keep distinct keys and
produce two distinct table rows (`max_row = 3`), not one. -/
theorem C10_counterexample :
    extractLines "Cadence 1.0.0"
        ["GUID: CYS-HSM_1", "detail a", "guid: cys-hsm_1", "detail a"] =
      [{ guid := "CYS-HSM_1", info_type := "Requirement", detail := "detail a",
         cadence := "Cadence 1.0.0", service := "" },
       { guid := "cys-hsm_1", info_type := "Requirement", detail := "detail a",
         cadence := "Cadence 1.0.0", service := "" }] ∧
    save_to_excel
        [{ guid := "CYS-HSM_1", info_type := "Requirement", detail := "detail a",
           cadence := "Cadence 1.0.0", service := "" },
         { guid := "cys-hsm_1", info_type := "Requirement", detail := "detail a",
           cadence := "Cadence 1.0.0", service := "" }] freshWs false =
      some ⟨[["Requirement ID", "Requirement/Information", "Cadence 1.0.0", "HSE Service"],
             ["CYS-HSM_1", "Requirement", "detail a", ""],
             ["cys-hsm_1", "Requirement", "detail a", ""]]⟩ ∧
    maxRow ⟨[["Requirement ID", "Requirement/Information", "Cadence 1.0.0", "HSE Service"],
             ["CYS-HSM_1", "Requirement", "detail a", ""],
             ["cys-hsm_1", "Requirement", "detail a", ""]]⟩ = 3 ∧ (3 : Nat) ≠ 2 := by
  refine ⟨by decide, by decide, by decide, by decide⟩

/-! ### Worksheet lemmas -/

/-- Padding with the default value does not change `getD`. -/
theorem getD_append_replicate {α : Type} (l : List α) (n i : Nat) (d : α) :
    (l ++ List.replicate n d).getD i d = l.getD i d := by
  rw [List.getD_eq_getElem?_getD, List.getD_eq_getElem?_getD, List.getElem?_append]
  split
  · rfl
  · rw [List.getElem?_replicate, List.getElem?_eq_none (by omega)]
    split <;> simp

theorem setIdx_length (l : List String) (i : Nat) (v : String) :
    (setIdx l i v).length = max l.length (i + 1) := by
  unfold setIdx
  simp
  omega

theorem setIdx_getD_self (l : List String) (i : Nat) (v : String) :
    (setIdx l i v).getD i "" = v := by
  unfold setIdx
  have hi : i < (l ++ List.replicate (i + 1 - l.length) "").length := by simp; omega
  rw [List.getD_eq_getElem?_getD, List.getElem?_set_self hi]
  rfl

theorem setIdx_getD_ne (l : List String) (i j : Nat) (v : String) (h : j ≠ i) :
    (setIdx l i v).getD j "" = l.getD j "" := by
  unfold setIdx
  rw [List.getD_eq_getElem?_getD, List.getElem?_set_ne (fun e => h e.symm),
    ← List.getD_eq_getElem?_getD]
  exact getD_append_replicate l _ j ""

/-- `getCell` only depends on the underlying 0-based coordinates. -/
theorem getCell_def (ws : Ws) (r c : Nat) :
    getCell ws r c = (ws.grid.getD (r - 1) []).getD (c - 1) "" := rfl

theorem maxRow_setCell (ws : Ws) (r c : Nat) (v : String) :
    maxRow (setCell ws r c v) = max (maxRow ws) r := by
  show ((ws.grid ++ List.replicate (r - ws.grid.length) []).set (r - 1) _).length = _
  rw [List.length_set, List.length_append, List.length_replicate]
  show _ = max ws.grid.length r
  omega

theorem setCell_grid_getD (ws : Ws) (r c : Nat) (v : String) (i : Nat)
    (hr : 1 ≤ ws.grid.length ∨ 1 ≤ r) :
    (setCell ws r c v).grid.getD i [] =
      if i = r - 1 then setIdx (ws.grid.getD (r - 1) []) (c - 1) v
      else ws.grid.getD i [] := by
  unfold setCell
  simp only
  split <;> rename_i hi
  · subst hi
    have hlt : r - 1 < (ws.grid ++ List.replicate (r - ws.grid.length) []).length := by
      simp; omega
    rw [List.getD_eq_getElem?_getD, List.getElem?_set_self hlt, Option.getD_some,
      getD_append_replicate]
  · rw [List.getD_eq_getElem?_getD, List.getElem?_set_ne (fun e => hi e.symm),
      ← List.getD_eq_getElem?_getD, getD_append_replicate]

theorem getCell_setCell_self (ws : Ws) (r c : Nat) (v : String) (hr : 1 ≤ r) :
    getCell (setCell ws r c v) r c = v := by
  rw [getCell_def, setCell_grid_getD ws r c v _ (Or.inr hr), if_pos rfl, setIdx_getD_self]

theorem getCell_setCell_ne (ws : Ws) (r c r' c' : Nat) (v : String) (hr : 1 ≤ r)
    (h : r' - 1 ≠ r - 1 ∨ c' - 1 ≠ c - 1) :
    getCell (setCell ws r c v) r' c' = getCell ws r' c' := by
  rw [getCell_def, getCell_def, setCell_grid_getD ws r c v _ (Or.inr hr)]
  rcases h with h | h
  · rw [if_neg h]
  · split <;> rename_i hi
    · rw [hi, setIdx_getD_ne _ _ _ _ h]
    · rfl

/-- A write at column `c` leaves every other column of every row alone
(no constraint on the row coordinate). -/
theorem getCell_setCell_col_ne (ws : Ws) (r c r' c' : Nat) (v : String)
    (h : c' - 1 ≠ c - 1) :
    getCell (setCell ws r c v) r' c' = getCell ws r' c' := by
  by_cases h0 : 1 ≤ ws.grid.length ∨ 1 ≤ r
  · rw [getCell_def, getCell_def, setCell_grid_getD ws r c v _ h0]
    split <;> rename_i hi
    · rw [hi, setIdx_getD_ne _ _ _ _ h]
    · rfl
  · have hg : ws.grid = [] := by
      cases hg : ws.grid with
      | nil => rfl
      | cons x xs => exact absurd (Or.inl (by rw [hg]; simp)) h0
    have hr : r = 0 := by omega
    obtain ⟨g⟩ := ws
    simp only at hg
    subst hg hr
    rfl

/-- Writing back the value a cell already reads changes no cell value. -/
theorem getCell_setCell_write_same (ws : Ws) (r c : Nat) (v : String) (hr1 : 1 ≤ r)
    (h : getCell ws r c = v) (r' c' : Nat) :
    getCell (setCell ws r c v) r' c' = getCell ws r' c' := by
  by_cases hr : r' - 1 = r - 1
  · by_cases hc : c' - 1 = c - 1
    · rw [getCell_def, getCell_def, setCell_grid_getD ws r c v _ (Or.inr hr1), if_pos hr, hr, hc,
        setIdx_getD_self]
      rw [getCell_def] at h
      exact h.symm
    · exact getCell_setCell_ne ws r c r' c' v hr1 (Or.inr hc)
  · exact getCell_setCell_ne ws r c r' c' v hr1 (Or.inl hr)

theorem getD_map_length (l : List (List String)) (i : Nat) :
    (l.map List.length).getD i 0 = (l.getD i []).length := by
  induction l generalizing i with
  | nil => simp
  | cons x xs ih =>
    cases i with
    | zero => simp
    | succ j => simpa using ih j

theorem foldrMax_append_zeros (ns : List Nat) (n : Nat) :
    (ns ++ List.replicate n 0).foldr max 0 = ns.foldr max 0 := by
  induction ns with
  | nil =>
    simp only [List.nil_append]
    induction n with
    | zero => rfl
    | succ m ih => simp [List.replicate_succ, ih]
  | cons x xs ih => simp [ih]

theorem foldrMax_set_max (ns : List Nat) (i : Nat) (hi : i < ns.length) (c : Nat) :
    (ns.set i (max (ns.getD i 0) c)).foldr max 0 = max (ns.foldr max 0) c := by
  induction ns generalizing i with
  | nil => simp at hi
  | cons x xs ih =>
    cases i with
    | zero => simp; omega
    | succ j =>
      have hj : j < xs.length := by simpa using hi
      simp only [List.set_cons_succ, List.foldr_cons, List.getD_cons_succ]
      rw [ih j hj]
      omega

theorem maxCol_setCell (ws : Ws) (r c : Nat) (v : String) (hr : 1 ≤ r) (hc : 1 ≤ c) :
    maxCol (setCell ws r c v) = max (maxCol ws) c := by
  unfold maxCol setCell
  simp only
  rw [List.map_set]
  have hlen : (setIdx ((ws.grid ++ List.replicate (r - ws.grid.length) []).getD (r - 1) [])
      (c - 1) v).length =
      max (((ws.grid ++ List.replicate (r - ws.grid.length) []).map List.length).getD (r - 1) 0) c := by
    rw [setIdx_length, getD_map_length]
    omega
  rw [hlen]
  have hi : r - 1 < ((ws.grid ++ List.replicate (r - ws.grid.length) []).map List.length).length := by
    simp; omega
  rw [foldrMax_set_max _ _ hi]
  have he : ((ws.grid ++ List.replicate (r - ws.grid.length) []).map List.length) =
      ws.grid.map List.length ++ List.replicate (r - ws.grid.length) 0 := by
    simp [List.map_append, List.map_replicate]
  rw [he, foldrMax_append_zeros]

theorem headD_length_le_maxCol (ws : Ws) : (ws.grid.headD []).length ≤ maxCol ws := by
  unfold maxCol
  cases hg : ws.grid with
  | nil => simp
  | cons x xs =>
    simp only [List.headD_cons, List.map_cons, List.foldr_cons]
    omega

theorem wsHeader_length (ws : Ws) : (wsHeader ws).length = maxCol ws := by
  unfold wsHeader
  have := headD_length_le_maxCol ws
  rw [List.length_append, List.length_replicate]
  omega

theorem colIndex_bounds {hs : List String} {name : String} {c : Nat}
    (h : colIndex hs name = some c) : 1 ≤ c ∧ c ≤ hs.length := by
  unfold colIndex at h
  rcases he : hs.reverse.findIdx? (fun x => x = name) with _ | k
  · rw [he] at h; exact absurd h (by simp)
  · rw [he] at h
    have hk := (List.findIdx?_eq_some_iff_getElem.1 he).1
    simp only [List.length_reverse] at hk
    simp only [Option.some.injEq] at h
    omega

theorem colIndex_mem {hs : List String} {name : String} {c : Nat}
    (h : colIndex hs name = some c) : name ∈ hs := by
  unfold colIndex at h
  rcases he : hs.reverse.findIdx? (fun x => x = name) with _ | k
  · rw [he] at h; exact absurd h (by simp)
  · obtain ⟨hk, hp, _⟩ := List.findIdx?_eq_some_iff_getElem.1 he
    have : hs.reverse[k] = name := by simpa using hp
    have hmem : name ∈ hs.reverse := this ▸ List.getElem_mem hk
    exact List.mem_reverse.1 hmem

theorem colIndex_isSome_of_mem {hs : List String} {name : String} (h : name ∈ hs) :
    (colIndex hs name).isSome := by
  unfold colIndex
  rcases he : hs.reverse.findIdx? (fun x => x = name) with _ | k
  · rw [List.findIdx?_eq_none_iff] at he
    have := he name (List.mem_reverse.2 h)
    simp at this
  · rfl

/-- Two different column titles cannot share a column index. -/
theorem colIndex_inj {hs : List String} {n1 n2 : String} {c : Nat}
    (h1 : colIndex hs n1 = some c) (h2 : colIndex hs n2 = some c) : n1 = n2 := by
  unfold colIndex at h1 h2
  rcases he1 : hs.reverse.findIdx? (fun x => x = n1) with _ | k1 <;> rw [he1] at h1
  · exact absurd h1 (by simp)
  rcases he2 : hs.reverse.findIdx? (fun x => x = n2) with _ | k2 <;> rw [he2] at h2
  · exact absurd h2 (by simp)
  obtain ⟨hk1, hp1, _⟩ := List.findIdx?_eq_some_iff_getElem.1 he1
  obtain ⟨hk2, hp2, _⟩ := List.findIdx?_eq_some_iff_getElem.1 he2
  simp only [Option.some.injEq] at h1 h2
  have hlen1 : k1 < hs.length := by simpa using hk1
  have hlen2 : k2 < hs.length := by simpa using hk2
  have hk : k1 = k2 := by omega
  subst hk
  have e1 : hs.reverse[k1] = n1 := by simpa using hp1
  have e2 : hs.reverse[k1] = n2 := by simpa using hp2
  rw [e1] at e2
  exact e2

theorem alookup_mem {α β : Type} [DecidableEq α] {m : List (α × β)} {k : α} {v : β}
    (h : alookup m k = some v) : (k, v) ∈ m := by
  induction m with
  | nil => simp [alookup] at h
  | cons p rest ih =>
    obtain ⟨k', v'⟩ := p
    unfold alookup at h
    split at h
    · rename_i he
      simp only [Option.some.injEq] at h
      exact List.mem_cons.2 (Or.inl (by rw [← he, ← h]))
    · exact List.mem_cons_of_mem _ (ih h)

theorem guid_row_init_bounds {ws : Ws} {g : String} {r : Nat}
    (h : alookup (guid_row_init ws) g = some r) : 2 ≤ r ∧ r ≤ maxRow ws := by
  have hmem := alookup_mem h
  unfold guid_row_init at hmem
  suffices hgen : ∀ (rs : List Nat) (m : List (String × Nat)),
      (∀ p ∈ m, 2 ≤ p.2 ∧ p.2 ≤ maxRow ws) → (∀ x ∈ rs, 2 ≤ x ∧ x ≤ maxRow ws) →
      ∀ p ∈ rs.foldl (fun m r => (getCell ws r 1, r) :: m) m, 2 ≤ p.2 ∧ p.2 ≤ maxRow ws by
    refine hgen (List.range' 2 (maxRow ws - 1)) [] (by simp) ?_ (g, r) hmem
    intro x hx
    have := List.mem_range'_1.1 hx
    omega
  intro rs
  induction rs with
  | nil => intro m hm _ p hp; exact hm p hp
  | cons x xs ih =>
    intro m hm hrs p hp
    refine ih _ ?_ (fun y hy => hrs y (List.mem_cons_of_mem _ hy)) p hp
    intro q hq
    rcases List.mem_cons.1 hq with rfl | hq'
    · exact hrs x (List.mem_cons_self x xs)
    · exact hm q hq'

theorem ensureHeaderCol_id {p : List String × Ws} {name : String} (h : name ∈ p.1) :
    ensureHeaderCol p name = p := by
  unfold ensureHeaderCol
  rw [if_pos h]

theorem ensureCadenceCols_id {rows : List ReqRow} {p : List String × Ws}
    (h : ∀ row ∈ rows, row.cadence ∈ p.1) : ensureCadenceCols rows p = p := by
  unfold ensureCadenceCols
  induction rows with
  | nil => rfl
  | cons row rest ih =>
    simp only [List.foldl_cons]
    rw [ensureHeaderCol_id (h row (List.mem_cons_self row rest))]
    exact ih (fun q hq => h q (List.mem_cons_of_mem _ hq))

/-- `save_to_excel` in updating mode, when every needed column already
exists: the header and `guid_row` phases are the identity and the result is
the row loop's worksheet. -/
theorem save_to_excel_updating (rows : List ReqRow) (t : Ws) (sc : Nat)
    (hserv : colIndex (wsHeader t) "HSE Service" = some sc)
    (hcads : ∀ row ∈ rows, row.cadence ∈ wsHeader t) :
    save_to_excel rows t true =
      Option.map Prod.fst (mergeRows (wsHeader t) sc (t, guid_row_init t) rows) := by
  unfold save_to_excel
  simp only [if_true]
  rw [ensureCadenceCols_id (p := (wsHeader t, t)) hcads,
    ensureHeaderCol_id (colIndex_mem hserv), hserv]
  cases hm : mergeRows (wsHeader t) sc (t, guid_row_init t) rows <;> simp [hm]

/-- The diff-or-keep expression of the row loop is the identity when the
stored text equals the incoming text. -/
theorem newval_of_stored (prev detail : String) (h : prev = detail) :
    newVal prev detail = detail := by
  subst h
  unfold newVal
  split
  · rfl
  · simp

/-- C3.  Re-merging a draft record whose (identifier, revision, text) triple
is already stored — the target revision cell for that identifier already
holds exactly the incoming text — is a no-op: the stored cell keeps its
value and the number of rows and columns of the table is unchanged (and
when the draft's service field is blank, as extraction always produces,
every cell value of the table is unchanged). -/
theorem C3_stored_triple_noop (row : ReqRow) (t : Ws) (r c sc : Nat)
    (hserv : colIndex (wsHeader t) "HSE Service" = some sc)
    (hcad : colIndex (wsHeader t) row.cadence = some c)
    (hbound : alookup (guid_row_init t) row.guid = some r)
    (hstored : getCell t r c = row.detail)
    (hcs : c ≠ sc) :
    ∃ t', save_to_excel [row] t true = some t' ∧
      getCell t' r c = row.detail ∧ maxRow t' = maxRow t ∧ maxCol t' = maxCol t ∧
      (row.service = "" → ∀ r' c', getCell t' r' c' = getCell t r' c') := by
  obtain ⟨hr2, hrmax⟩ := guid_row_init_bounds hbound
  obtain ⟨hc1, hcle⟩ := colIndex_bounds hcad
  obtain ⟨hsc1, hscle⟩ := colIndex_bounds hserv
  have hr1 : 1 ≤ r := by omega
  have hcmax : c ≤ maxCol t := by rw [← wsHeader_length t]; exact hcle
  have hscmax : sc ≤ maxCol t := by rw [← wsHeader_length t]; exact hscle
  have hcads : ∀ q ∈ [row], q.cadence ∈ wsHeader t := by
    intro q hq
    rcases List.mem_singleton.1 hq with rfl
    exact colIndex_mem hcad
  -- the worksheet after the cadence-cell write
  have hws1 : ∀ r' c', getCell (setCell t r c row.detail) r' c' = getCell t r' c' :=
    getCell_setCell_write_same t r c row.detail hr1 hstored
  set ws1 := setCell t r c row.detail with hws1def
  have hmr1 : maxRow ws1 = maxRow t := by
    rw [hws1def, maxRow_setCell t r c _]; omega
  have hmc1 : maxCol ws1 = maxCol t := by
    rw [hws1def, maxCol_setCell t r c _ hr1 hc1]; omega
  -- the merge step
  have hstep : mergeStep (wsHeader t) sc (t, guid_row_init t) row =
      some (svcFill ws1 r sc row.service, guid_row_init t) := by
    unfold mergeStep
    rw [hcad]
    simp only [hbound]
    rw [hstored, newval_of_stored _ _ rfl]
  refine ⟨svcFill ws1 r sc row.service, ?_, ?_, ?_, ?_, ?_⟩
  · rw [save_to_excel_updating [row] t sc hserv hcads]
    unfold mergeRows
    rw [hstep]
    rfl
  · unfold svcFill
    split
    · rw [getCell_setCell_ne ws1 r sc r c _ hr1 (Or.inr (by omega)), hws1]
      exact hstored
    · rw [hws1]
      exact hstored
  · unfold svcFill
    split
    · rw [maxRow_setCell ws1 r sc _, hmr1]; omega
    · exact hmr1
  · unfold svcFill
    split
    · rw [maxCol_setCell ws1 r sc _ hr1 hsc1, hmc1]; omega
    · exact hmc1
  · intro hsv r' c'
    unfold svcFill
    split <;> rename_i hblank
    · rw [hsv, getCell_setCell_write_same ws1 r sc "" hr1 hblank, hws1]
    · exact hws1 r' c'

/-- Witness for C3 at a concrete stored triple. -/
theorem C3_witness :
    ∃ t', save_to_excel
        [{ guid := "CYS-X_1", info_type := "Requirement", detail := "d1",
           cadence := "Cadence 1.0.0", service := "" }]
        ⟨[["Requirement ID", "Requirement/Information", "Cadence 1.0.0", "HSE Service"],
          ["CYS-X_1", "Requirement", "d1", ""]]⟩ true = some t' ∧
      getCell t' 2 3 = "d1" ∧
      maxRow t' = maxRow ⟨[["Requirement ID", "Requirement/Information", "Cadence 1.0.0",
        "HSE Service"], ["CYS-X_1", "Requirement", "d1", ""]]⟩ ∧
      maxCol t' = maxCol ⟨[["Requirement ID", "Requirement/Information", "Cadence 1.0.0",
        "HSE Service"], ["CYS-X_1", "Requirement", "d1", ""]]⟩ ∧
      (({ guid := "CYS-X_1", info_type := "Requirement", detail := "d1",
          cadence := "Cadence 1.0.0", service := "" } : ReqRow).service = "" →
        ∀ r' c', getCell t' r' c' =
          getCell ⟨[["Requirement ID", "Requirement/Information", "Cadence 1.0.0",
            "HSE Service"], ["CYS-X_1", "Requirement", "d1", ""]]⟩ r' c') :=
  C3_stored_triple_noop
    { guid := "CYS-X_1", info_type := "Requirement", detail := "d1",
      cadence := "Cadence 1.0.0", service := "" }
    ⟨[["Requirement ID", "Requirement/Information", "Cadence 1.0.0", "HSE Service"],
      ["CYS-X_1", "Requirement", "d1", ""]]⟩ 2 3 4
    (by decide) (by decide) (by decide) (by decide) (by decide)

/-- Filling the service cell cannot shrink the row count. -/
theorem maxRow_le_svcFill (ws : Ws) (r sc : Nat) (s : String) :
    maxRow ws ≤ maxRow (svcFill ws r sc s) := by
  unfold svcFill
  split
  · rw [maxRow_setCell]; exact Nat.le_max_left _ _
  · exact Nat.le_refl _

/-- Filling the service cell leaves every column other than `sc` alone. -/
theorem getCell_svcFill_ne (ws : Ws) (r sc : Nat) (s : String) (r' c' : Nat) (hr : 1 ≤ r)
    (h : r' - 1 ≠ r - 1 ∨ c' - 1 ≠ sc - 1) :
    getCell (svcFill ws r sc s) r' c' = getCell ws r' c' := by
  unfold svcFill
  split
  · exact getCell_setCell_ne ws r sc r' c' s hr h
  · rfl

/-- Filling the service cell leaves every other column alone (no constraint
on the row coordinate). -/
theorem getCell_svcFill_col_ne (ws : Ws) (r sc : Nat) (s : String) (r' c' : Nat)
    (h : c' - 1 ≠ sc - 1) :
    getCell (svcFill ws r sc s) r' c' = getCell ws r' c' := by
  unfold svcFill
  split
  · exact getCell_setCell_col_ne ws r sc r' c' s h
  · rfl

/-- One merge step can only add rows, and it never writes the type column
(column 2) of a pre-existing row, since its cadence and service writes go to
other columns and a created row lies below every pre-existing one. -/
theorem mergeStep_preserves_col2 (header : List String) (sc : Nat)
    (st st₂ : Ws × List (String × Nat)) (row : ReqRow)
    (hc2 : colIndex header row.cadence ≠ some 2) (hsc : sc ≠ 2)
    (h : mergeStep header sc st row = some st₂) :
    maxRow st.1 ≤ maxRow st₂.1 ∧
      ∀ r', 1 ≤ r' → r' ≤ maxRow st.1 → getCell st₂.1 r' 2 = getCell st.1 r' 2 := by
  unfold mergeStep at h
  split at h
  · exact absurd h (by simp)
  · rename_i c hcad
    have hc : c ≠ 2 := fun e => hc2 (e ▸ hcad)
    have hc1' : 1 ≤ c := (colIndex_bounds hcad).1
    split at h
    · -- existing row r0
      rename_i r0 hlook
      dsimp only at h
      simp only [Option.some.injEq] at h
      subst h
      constructor
      · calc maxRow st.1
            ≤ maxRow (setCell st.1 r0 c (newVal (getCell st.1 r0 c) row.detail)) := by
              rw [maxRow_setCell]; exact Nat.le_max_left _ _
          _ ≤ _ := maxRow_le_svcFill _ _ _ _
      · intro r' h1 h2
        rw [getCell_svcFill_col_ne _ _ _ _ _ _ (by omega),
          getCell_setCell_col_ne _ _ _ _ _ _ (by omega)]
    · -- no binding: row creation (or KeyError)
      rename_i hlook
      split at h
      · rename_i c1 c2 hcol1 hcol2
        dsimp only at h
        simp only [Option.some.injEq] at h
        subst h
        set r := maxRow st.1 + 1 with hrdef
        set ws0 := setCell (setCell st.1 r c1 row.guid) r c2 row.info_type with hws0
        constructor
        · calc maxRow st.1
              ≤ maxRow ws0 := by
                rw [hws0, maxRow_setCell, maxRow_setCell]
                exact Nat.le_trans (Nat.le_max_left _ _) (Nat.le_max_left _ _)
            _ ≤ maxRow (setCell ws0 r c (newVal (getCell ws0 r c) row.detail)) := by
                rw [maxRow_setCell ws0 r c (newVal (getCell ws0 r c) row.detail)]
                exact Nat.le_max_left _ _
            _ ≤ _ := maxRow_le_svcFill _ _ _ _
        · intro r' h1 h2
          have hne : r' - 1 ≠ r - 1 := by omega
          rw [getCell_svcFill_ne _ _ _ _ _ _ (by omega) (Or.inl hne),
            getCell_setCell_ne _ _ _ _ _ _ (by omega) (Or.inl hne), hws0,
            getCell_setCell_ne _ _ _ _ _ _ (by omega) (Or.inl hne),
            getCell_setCell_ne _ _ _ _ _ _ (by omega) (Or.inl hne)]
      · exact absurd h (by simp)

/-- The row loop never writes the type column of a pre-existing row. -/
theorem mergeRows_preserves_col2 (header : List String) (sc : Nat) (rows : List ReqRow)
    (hsc : sc ≠ 2) (hc2 : ∀ row ∈ rows, colIndex header row.cadence ≠ some 2) :
    ∀ st st', mergeRows header sc st rows = some st' →
      maxRow st.1 ≤ maxRow st'.1 ∧
        ∀ r', 1 ≤ r' → r' ≤ maxRow st.1 → getCell st'.1 r' 2 = getCell st.1 r' 2 := by
  induction rows with
  | nil =>
    intro st st' h
    unfold mergeRows at h
    simp only [Option.some.injEq] at h
    subst h
    exact ⟨Nat.le_refl _, fun _ _ _ => rfl⟩
  | cons row rest ih =>
    intro st st' h
    unfold mergeRows at h
    split at h
    · exact absurd h (by simp)
    · rename_i st₂ hstep
      obtain ⟨hm1, hcell1⟩ := mergeStep_preserves_col2 header sc st st₂ row
        (hc2 row (List.mem_cons_self row rest)) hsc hstep
      obtain ⟨hm2, hcell2⟩ := ih (fun q hq => hc2 q (List.mem_cons_of_mem _ hq)) st₂ st' h
      refine ⟨Nat.le_trans hm1 hm2, fun r' h1 h2 => ?_⟩
      rw [hcell2 r' h1 (Nat.le_trans h2 hm1), hcell1 r' h1 h2]

/-- C7.  The type tag: (1) for every pre-existing row of the table, a merge
in updating mode leaves the type column (column 2, `Requirement/Information`)
untouched — even when a draft re-tags the same identifier with a different
type; (2) when a draft's identifier is new, the merge step creates the row
one past the current last row and writes the draft's type tag there —
the single write at row creation. -/
theorem C7_type_tag_written_once :
    (∀ (rows : List ReqRow) (t : Ws) (sc : Nat) (t' : Ws),
      colIndex (wsHeader t) "HSE Service" = some sc → sc ≠ 2 →
      (∀ row ∈ rows, row.cadence ∈ wsHeader t) →
      (∀ row ∈ rows, colIndex (wsHeader t) row.cadence ≠ some 2) →
      save_to_excel rows t true = some t' →
      ∀ r', 1 ≤ r' → r' ≤ maxRow t → getCell t' r' 2 = getCell t r' 2) ∧
    (∀ (header : List String) (sc : Nat) (st : Ws × List (String × Nat)) (row : ReqRow)
        (c c1 : Nat),
      colIndex header row.cadence = some c → c ≠ 2 → sc ≠ 2 →
      colIndex header "Requirement ID" = some c1 →
      colIndex header "Requirement/Information" = some 2 →
      alookup st.2 row.guid = none →
      ∃ ws2, mergeStep header sc st row = some (ws2, (row.guid, maxRow st.1 + 1) :: st.2) ∧
        getCell ws2 (maxRow st.1 + 1) 2 = row.info_type) := by
  constructor
  · intro rows t sc t' hserv hsc hcads hc2 hsave r' h1 h2
    rw [save_to_excel_updating rows t sc hserv hcads] at hsave
    rcases hm : mergeRows (wsHeader t) sc (t, guid_row_init t) rows with _ | st'
    · rw [hm] at hsave; exact absurd hsave (by simp)
    · rw [hm] at hsave
      simp only [Option.map_some', Option.some.injEq] at hsave
      subst hsave
      exact (mergeRows_preserves_col2 (wsHeader t) sc rows hsc hc2 _ _ hm).2 r' h1 h2
  · intro header sc st row c c1 hcad hc hsc hcol1 hcol2 hnew
    refine ⟨svcFill (setCell (setCell (setCell st.1 (maxRow st.1 + 1) c1 row.guid)
        (maxRow st.1 + 1) 2 row.info_type) (maxRow st.1 + 1) c
        (newVal (getCell (setCell (setCell st.1 (maxRow st.1 + 1) c1 row.guid)
          (maxRow st.1 + 1) 2 row.info_type) (maxRow st.1 + 1) c) row.detail))
        (maxRow st.1 + 1) sc row.service, ?_, ?_⟩
    · unfold mergeStep
      rw [hcad]
      simp only [hnew, hcol1, hcol2]
    · rw [getCell_svcFill_ne _ _ _ _ _ _ (by omega) (Or.inr (by omega)),
        getCell_setCell_ne _ _ _ _ _ _ (by omega)
          (Or.inr (by have := (colIndex_bounds hcad).1; omega)),
        getCell_setCell_self _ _ _ _ (by omega)]

/-- Witness for C7: a later draft re-tagging `CYS-X_1` as `Information` in a
new cadence leaves the stored `Requirement` tag unchanged, and a fresh
identifier's row is created with its draft's tag written at creation. -/
theorem C7_witness :
    getCell (⟨[["Requirement ID", "Requirement/Information", "Cadence 1.0.0", "Cadence 2.0.0",
        "HSE Service"], ["CYS-X_1", "Requirement", "d1", "d2", ""]]⟩ : Ws) 2 2 =
      getCell (⟨[["Requirement ID", "Requirement/Information", "Cadence 1.0.0", "Cadence 2.0.0",
        "HSE Service"], ["CYS-X_1", "Requirement", "d1", "", ""]]⟩ : Ws) 2 2 ∧
    getCell (⟨[["Requirement ID", "Requirement/Information", "Cadence 1.0.0", "Cadence 2.0.0",
        "HSE Service"], ["CYS-X_1", "Requirement", "d1", "", ""]]⟩ : Ws) 2 2 = "Requirement" ∧
    (∃ ws2, mergeStep ["Requirement ID", "Requirement/Information", "Cadence 1.0.0",
        "HSE Service"] 4
        (⟨[["Requirement ID", "Requirement/Information", "Cadence 1.0.0", "HSE Service"]]⟩, [])
        { guid := "CYS-Y_9", info_type := "Information", detail := "d9",
          cadence := "Cadence 1.0.0", service := "" } =
        some (ws2, [("CYS-Y_9", 2)]) ∧ getCell ws2 2 2 = "Information") := by
  refine ⟨?_, by decide, ?_⟩
  · exact C7_type_tag_written_once.1
      [{ guid := "CYS-X_1", info_type := "Information", detail := "d2",
         cadence := "Cadence 2.0.0", service := "" }]
      ⟨[["Requirement ID", "Requirement/Information", "Cadence 1.0.0", "Cadence 2.0.0",
         "HSE Service"], ["CYS-X_1", "Requirement", "d1", "", ""]]⟩ 5
      ⟨[["Requirement ID", "Requirement/Information", "Cadence 1.0.0", "Cadence 2.0.0",
         "HSE Service"], ["CYS-X_1", "Requirement", "d1", "d2", ""]]⟩
      (by decide) (by decide) (by decide) (by decide) (by decide) 2 (by decide) (by decide)
  · exact C7_type_tag_written_once.2
      ["Requirement ID", "Requirement/Information", "Cadence 1.0.0", "HSE Service"] 4
      (⟨[["Requirement ID", "Requirement/Information", "Cadence 1.0.0", "HSE Service"]]⟩, [])
      { guid := "CYS-Y_9", info_type := "Information", detail := "d9",
        cadence := "Cadence 1.0.0", service := "" } 3 1
      (by decide) (by decide) (by decide) (by decide) (by decide) (by decide)

/-- The no-op row loop: when every draft's target cell already holds exactly
the draft's text and every draft's service field is blank, the loop changes
no cell value and no dimension. -/
theorem mergeRows_noop (t1 : Ws) (sc : Nat)
    (hserv : colIndex (wsHeader t1) "HSE Service" = some sc) :
    ∀ (rows : List ReqRow),
      (∀ row ∈ rows, row.service = "" ∧
        ∃ r c, alookup (guid_row_init t1) row.guid = some r ∧
          colIndex (wsHeader t1) row.cadence = some c ∧ getCell t1 r c = row.detail) →
      ∀ ws : Ws, maxRow ws = maxRow t1 → maxCol ws = maxCol t1 →
        (∀ r c, getCell ws r c = getCell t1 r c) →
        ∃ ws', mergeRows (wsHeader t1) sc (ws, guid_row_init t1) rows =
            some (ws', guid_row_init t1) ∧
          maxRow ws' = maxRow t1 ∧ maxCol ws' = maxCol t1 ∧
          ∀ r c, getCell ws' r c = getCell t1 r c := by
  obtain ⟨hsc1, hscle⟩ := colIndex_bounds hserv
  have hscmax : sc ≤ maxCol t1 := by rw [← wsHeader_length t1]; exact hscle
  intro rows
  induction rows with
  | nil =>
    intro _ ws h1 h2 h3
    exact ⟨ws, rfl, h1, h2, h3⟩
  | cons row rest ih =>
    intro hrows ws h1 h2 h3
    obtain ⟨hsv, r, c, hbound, hcad, hstored⟩ := hrows row (List.mem_cons_self row rest)
    obtain ⟨hr2, hrmax⟩ := guid_row_init_bounds hbound
    obtain ⟨hc1, hcle⟩ := colIndex_bounds hcad
    have hcmax : c ≤ maxCol t1 := by rw [← wsHeader_length t1]; exact hcle
    have hr1 : (1 : Nat) ≤ r := by omega
    have hprev : getCell ws r c = row.detail := by rw [h3]; exact hstored
    -- the cadence write is a same-value write
    have hw1 : ∀ r' c', getCell (setCell ws r c (newVal (getCell ws r c) row.detail)) r' c' =
        getCell ws r' c' := by
      rw [hprev, newval_of_stored _ _ rfl]
      exact getCell_setCell_write_same ws r c row.detail hr1 hprev
    set ws1 := setCell ws r c (newVal (getCell ws r c) row.detail) with hws1def
    have hmr1 : maxRow ws1 = maxRow t1 := by
      rw [hws1def, maxRow_setCell]; omega
    have hmc1 : maxCol ws1 = maxCol t1 := by
      rw [hws1def, maxCol_setCell _ _ _ _ hr1 hc1]; omega
    -- the service fill is a blank write of a blank value (or no write)
    have hw2 : ∀ r' c', getCell (svcFill ws1 r sc row.service) r' c' = getCell ws1 r' c' := by
      unfold svcFill
      split <;> rename_i hbl
      · rw [hsv]
        exact getCell_setCell_write_same ws1 r sc "" hr1 hbl
      · intro r' c'; rfl
    have hmr2 : maxRow (svcFill ws1 r sc row.service) = maxRow t1 := by
      unfold svcFill
      split
      · rw [maxRow_setCell]; omega
      · exact hmr1
    have hmc2 : maxCol (svcFill ws1 r sc row.service) = maxCol t1 := by
      unfold svcFill
      split
      · rw [maxCol_setCell _ _ _ _ hr1 hsc1]; omega
      · exact hmc1
    have hcells2 : ∀ r' c', getCell (svcFill ws1 r sc row.service) r' c' = getCell t1 r' c' := by
      intro r' c'
      rw [hw2, hw1, h3]
    obtain ⟨ws', hmr, hm1, hm2, hm3⟩ := ih (fun q hq => hrows q (List.mem_cons_of_mem _ hq))
      (svcFill ws1 r sc row.service) hmr2 hmc2 hcells2
    refine ⟨ws', ?_, hm1, hm2, hm3⟩
    unfold mergeRows
    have hstep : mergeStep (wsHeader t1) sc (ws, guid_row_init t1) row =
        some (svcFill ws1 r sc row.service, guid_row_init t1) := by
      unfold mergeStep
      rw [hcad]
      simp only [hbound]
    rw [hstep]
    dsimp only
    exact hmr

/-- C2 as amended.  Merging a document set a second time yields a table with
identical dimensions and identical cell values, provided each draft's
(identifier, revision) cell already holds exactly the draft's text after the
first merge — which a first merge establishes whenever the set carries no
two different texts for one (identifier, revision) pair and no targeted cell
of the starting table held a different text.  (Without the proviso, the
second merge re-diffs annotated cells and the tables differ; see the
counterexample.) -/
theorem C2_amended_remerge_identical (rows : List ReqRow) (t1 : Ws) (sc : Nat)
    (hserv : colIndex (wsHeader t1) "HSE Service" = some sc)
    (hrows : ∀ row ∈ rows, row.service = "" ∧
      ∃ r c, alookup (guid_row_init t1) row.guid = some r ∧
        colIndex (wsHeader t1) row.cadence = some c ∧ getCell t1 r c = row.detail) :
    ∃ t2, save_to_excel rows t1 true = some t2 ∧
      maxRow t2 = maxRow t1 ∧ maxCol t2 = maxCol t1 ∧
      ∀ r c, getCell t2 r c = getCell t1 r c := by
  have hcads : ∀ row ∈ rows, row.cadence ∈ wsHeader t1 := by
    intro q hq
    obtain ⟨_, _, c, _, hcad, _⟩ := hrows q hq
    exact colIndex_mem hcad
  obtain ⟨ws', hmr, h1, h2, h3⟩ :=
    mergeRows_noop t1 sc hserv rows hrows t1 rfl rfl (fun _ _ => rfl)
  refine ⟨ws', ?_, h1, h2, h3⟩
  rw [save_to_excel_updating rows t1 sc hserv hcads, hmr]
  rfl

/-- Witness for C2 as amended, on the table produced by a first merge; the
final conjunct checks full idempotence of the double merge concretely. -/
theorem C2_amended_witness :
    (∃ t2, save_to_excel
        [{ guid := "CYS-X_1", info_type := "Requirement", detail := "hello world",
           cadence := "Cadence 1.0.0", service := "" }]
        ⟨[["Requirement ID", "Requirement/Information", "Cadence 1.0.0", "HSE Service"],
          ["CYS-X_1", "Requirement", "hello world", ""]]⟩ true = some t2 ∧
      maxRow t2 = 2 ∧ maxCol t2 = 4 ∧
      ∀ r c, getCell t2 r c =
        getCell ⟨[["Requirement ID", "Requirement/Information", "Cadence 1.0.0", "HSE Service"],
          ["CYS-X_1", "Requirement", "hello world", ""]]⟩ r c) ∧
    (save_to_excel
        [{ guid := "CYS-X_1", info_type := "Requirement", detail := "hello world",
           cadence := "Cadence 1.0.0", service := "" }] freshWs false =
      some ⟨[["Requirement ID", "Requirement/Information", "Cadence 1.0.0", "HSE Service"],
             ["CYS-X_1", "Requirement", "hello world", ""]]⟩ ∧
     save_to_excel
        [{ guid := "CYS-X_1", info_type := "Requirement", detail := "hello world",
           cadence := "Cadence 1.0.0", service := "" }]
        ⟨[["Requirement ID", "Requirement/Information", "Cadence 1.0.0", "HSE Service"],
          ["CYS-X_1", "Requirement", "hello world", ""]]⟩ true =
      some ⟨[["Requirement ID", "Requirement/Information", "Cadence 1.0.0", "HSE Service"],
             ["CYS-X_1", "Requirement", "hello world", ""]]⟩) := by
  constructor
  · obtain ⟨t2, ha, hb, hc, hd⟩ := C2_amended_remerge_identical
      [{ guid := "CYS-X_1", info_type := "Requirement", detail := "hello world",
         cadence := "Cadence 1.0.0", service := "" }]
      ⟨[["Requirement ID", "Requirement/Information", "Cadence 1.0.0", "HSE Service"],
        ["CYS-X_1", "Requirement", "hello world", ""]]⟩ 4 (by decide)
      (by
        intro row hrow
        rcases List.mem_singleton.1 hrow with rfl
        exact ⟨by decide, 2, 3, by decide, by decide, by decide⟩)
    exact ⟨t2, ha, by rw [hb]; decide, by rw [hc]; decide, hd⟩
  · exact ⟨by decide, by decide⟩

/-- Filling the service cell grows the row count at most to `r`. -/
theorem maxRow_svcFill_le (ws : Ws) (r sc : Nat) (s : String) :
    maxRow (svcFill ws r sc s) ≤ max (maxRow ws) r := by
  unfold svcFill
  split
  · rw [maxRow_setCell]
  · exact Nat.le_max_left _ _

/-- One merge step adds at most one row; its row map stays bounded by the
row count; the draft's identifier is bound afterwards; and when the
identifier was already bound the row count does not change at all. -/
theorem mergeStep_row_bound (header : List String) (sc : Nat)
    (st st₂ : Ws × List (String × Nat)) (row : ReqRow)
    (hb : ∀ g r', alookup st.2 g = some r' → r' ≤ maxRow st.1)
    (h : mergeStep header sc st row = some st₂) :
    maxRow st₂.1 ≤ maxRow st.1 + 1 ∧
      (∀ g r', alookup st₂.2 g = some r' → r' ≤ maxRow st₂.1) ∧
      (alookup st₂.2 row.guid).isSome = true ∧
      ((alookup st.2 row.guid).isSome = true → maxRow st₂.1 = maxRow st.1) := by
  unfold mergeStep at h
  split at h
  · exact absurd h (by simp)
  · rename_i c hcad
    split at h
    · -- existing binding r0
      rename_i r0 hlook
      dsimp only at h
      simp only [Option.some.injEq] at h
      subst h
      have hr0 : r0 ≤ maxRow st.1 := hb row.guid r0 hlook
      have hmr : maxRow (svcFill (setCell st.1 r0 c (newVal (getCell st.1 r0 c) row.detail))
          r0 sc row.service) = maxRow st.1 := by
        have h1 := maxRow_svcFill_le (setCell st.1 r0 c (newVal (getCell st.1 r0 c) row.detail))
          r0 sc row.service
        have h2 := maxRow_le_svcFill (setCell st.1 r0 c (newVal (getCell st.1 r0 c) row.detail))
          r0 sc row.service
        rw [maxRow_setCell] at h1 h2
        omega
      refine ⟨by dsimp only; omega, ?_, by dsimp only; rw [hlook]; rfl,
        fun _ => by dsimp only; omega⟩
      intro g r' hg
      dsimp only at hg ⊢
      rw [hmr]
      exact hb g r' hg
    · rename_i hlook
      split at h
      · -- row creation at maxRow + 1
        rename_i c1 c2 hcol1 hcol2
        dsimp only at h
        simp only [Option.some.injEq] at h
        subst h
        set r := maxRow st.1 + 1 with hrdef
        set ws0 := setCell (setCell st.1 r c1 row.guid) r c2 row.info_type with hws0
        have hmr0 : maxRow ws0 = r := by
          rw [hws0, maxRow_setCell, maxRow_setCell]; omega
        have hmr1 : maxRow (setCell ws0 r c (newVal (getCell ws0 r c) row.detail)) = r := by
          rw [maxRow_setCell ws0 r c (newVal (getCell ws0 r c) row.detail), hmr0]; omega
        have hmr : maxRow (svcFill (setCell ws0 r c (newVal (getCell ws0 r c) row.detail))
            r sc row.service) = r := by
          have h1 := maxRow_svcFill_le (setCell ws0 r c (newVal (getCell ws0 r c) row.detail))
            r sc row.service
          have h2 := maxRow_le_svcFill (setCell ws0 r c (newVal (getCell ws0 r c) row.detail))
            r sc row.service
          rw [hmr1] at h1 h2
          omega
        refine ⟨by dsimp only; omega, ?_, ?_, ?_⟩
        · intro g r' hg
          dsimp only at hg ⊢
          rw [hmr]
          unfold alookup at hg
          split at hg
          · simp only [Option.some.injEq] at hg; omega
          · have := hb g r' hg; omega
        · show (alookup ((row.guid, r) :: st.2) row.guid).isSome = true
          unfold alookup
          rw [if_pos rfl]
          rfl
        · intro hsome
          rw [hlook] at hsome
          exact absurd hsome (by simp)
      · exact absurd h (by simp)

/-- C10 as amended.  Identifier normalization removes every whitespace
character but preserves letter case: the keys of a block's records are
exactly the whitespace-stripped raw occurrences, records of one block with
equal keys are fully identical, and merging two drafts sharing one key
creates at most one table row.  (Occurrences differing in case keep distinct
keys and distinct rows; see the counterexample.) -/
theorem C10_amended_ws_only_normalization :
    (∀ (cadence line : String) (details : List String), details ≠ [] →
      (blockRows cadence line details).map ReqRow.guid = (guidFindall line).map subWsEmpty) ∧
    (∀ (cadence line : String) (details : List String), details ≠ [] →
      ∀ r1 ∈ blockRows cadence line details, ∀ r2 ∈ blockRows cadence line details,
        r1.guid = r2.guid → r1 = r2) ∧
    (∀ (header : List String) (sc : Nat) (ws : Ws) (gm : List (String × Nat))
        (r1 r2 : ReqRow) (st' : Ws × List (String × Nat)),
      (∀ g r', alookup gm g = some r' → r' ≤ maxRow ws) → r1.guid = r2.guid →
      mergeRows header sc (ws, gm) [r1, r2] = some st' →
      maxRow st'.1 ≤ maxRow ws + 1) := by
  refine ⟨?_, ?_, ?_⟩
  · intro cadence line details h
    rw [blockRows_eq_map cadence line details h, List.map_map]
    rfl
  · intro cadence line details h r1 h1 r2 h2 hg
    rw [blockRows_eq_map cadence line details h] at h1 h2
    obtain ⟨g1, _, e1⟩ := List.mem_map.1 h1
    obtain ⟨g2, _, e2⟩ := List.mem_map.1 h2
    subst e1
    subst e2
    have hsub : subWsEmpty g1 = subWsEmpty g2 := hg
    simp only [hsub]
  · intro header sc ws gm r1 r2 st' hb hg hmr
    unfold mergeRows at hmr
    split at hmr
    · exact absurd hmr (by simp)
    · rename_i st₂ hstep1
      obtain ⟨hle1, hb2, hsome, _⟩ := mergeStep_row_bound header sc (ws, gm) st₂ r1 hb hstep1
      unfold mergeRows at hmr
      split at hmr
      · exact absurd hmr (by simp)
      · rename_i st₃ hstep2
        obtain ⟨_, _, _, heq⟩ := mergeStep_row_bound header sc st₂ st₃ r2 hb2 hstep2
        have : maxRow st₃.1 = maxRow st₂.1 := heq (by rw [← hg]; exact hsome)
        unfold mergeRows at hmr
        simp only [Option.some.injEq] at hmr
        subst hmr
        dsimp only at hle1 ⊢
        omega

/-- Witness for C10: two raw occurrences differing only in interior
whitespace normalize to the same key, their drafts are identical, and the
merged table holds a single data row. -/
theorem C10_amended_witness :
    subWsEmpty "CYS-HSM_ 1" = subWsEmpty "CYS-HSM_1" ∧
    guidFindall "GUID: CYS-HSM_ 1" = ["CYS-HSM_ 1"] ∧
    (blockRows "Cadence 1.0.0" "GUID: CYS-HSM_ 1" ["d"]).map ReqRow.guid =
      (guidFindall "GUID: CYS-HSM_ 1").map subWsEmpty ∧
    (∀ (st' : Ws × List (String × Nat)),
      mergeRows ["Requirement ID", "Requirement/Information", "Cadence 1.0.0", "HSE Service"] 4
        (freshWs, [])
        [{ guid := "CYS-HSM_1", info_type := "Requirement", detail := "d",
           cadence := "Cadence 1.0.0", service := "" },
         { guid := "CYS-HSM_1", info_type := "Requirement", detail := "d",
           cadence := "Cadence 1.0.0", service := "" }] = some st' →
      maxRow st'.1 ≤ 2) ∧
    save_to_excel
      [{ guid := "CYS-HSM_1", info_type := "Requirement", detail := "d",
         cadence := "Cadence 1.0.0", service := "" },
       { guid := "CYS-HSM_1", info_type := "Requirement", detail := "d",
         cadence := "Cadence 1.0.0", service := "" }] freshWs false =
      some ⟨[["Requirement ID", "Requirement/Information", "Cadence 1.0.0", "HSE Service"],
             ["CYS-HSM_1", "Requirement", "d", ""]]⟩ := by
  refine ⟨by decide, by decide, ?_, ?_, by decide⟩
  · exact C10_amended_ws_only_normalization.1 "Cadence 1.0.0" "GUID: CYS-HSM_ 1" ["d"]
      (by decide)
  · intro st' h
    exact C10_amended_ws_only_normalization.2.2
      ["Requirement ID", "Requirement/Information", "Cadence 1.0.0", "HSE Service"] 4
      freshWs [] _ _ st' (by intro g r' hg; exact absurd hg (by simp [alookup])) rfl h

/-! ### difflib verification: slices, windows and the projection to `b`

The central fact behind C1 and C6: the `'  '`/`'+ '` payloads of a word
diff are exactly `b`, in order.  It follows from invariants of
`find_longest_match` (matches lie in their window and their two sides are
elementwise equal), of the region queue (blocks are pairwise separated),
of the sort/collapse pipeline (blocks form a `sepM` chain ending in the
sentinel), and an exactness induction over `_fancy_replace`. -/

/-- `l[lo:hi]` as a list. -/
def sliceL {α : Type} (l : List α) (lo hi : Nat) : List α :=
  (l.drop lo).take (hi - lo)

/-- The `b`-side projection of a diff line list: the payloads of the
unchanged (`'  '`) and inserted (`'+ '`) lines, in order. -/
def projNew : List String → List String
  | [] => []
  | w :: rest =>
    if pyStartsWith w "  " || pyStartsWith w "+ " then pyDrop w 2 :: projNew rest
    else projNew rest

/-- `a[m.a : m.a+size] == b[m.b : m.b+size]`, elementwise. -/
def winEq {α : Type} (a b : List α) (m : PyMatch) : Prop :=
  ∀ t, t < m.size → a[m.a + t]? = b[m.b + t]?

/-- The match lies inside the window `[alo, ahi) × [blo, bhi)`. -/
def validM (alo ahi blo bhi : Nat) (m : PyMatch) : Prop :=
  alo ≤ m.a ∧ m.a + m.size ≤ ahi ∧ blo ≤ m.b ∧ m.b + m.size ≤ bhi

/-- A correct match for the window: in bounds and elementwise equal. -/
def bestInv {α : Type} (a b : List α) (alo ahi blo bhi : Nat) (m : PyMatch) : Prop :=
  validM alo ahi blo bhi m ∧ winEq a b m

/-- Match `y` lies strictly before match `z` on both sides. -/
def sepM (y z : PyMatch) : Prop :=
  y.a + y.size ≤ z.a ∧ y.b + y.size ≤ z.b

/-- The index map sends each key to positions of that key in `b`. -/
def b2jSound {α : Type} (b : List α) (m : List (α × List Nat)) : Prop :=
  ∀ p ∈ m, ∀ j ∈ p.2, b[j]? = some p.1

/-- Equal windows of length `k` ending at `(i, j)`:
`a[i-t] == b[j-t]` for `t < k`. -/
def winEndEq {α : Type} (a b : List α) (i j k : Nat) : Prop :=
  ∀ t, t < k → a[i - t]? = b[j - t]?

/-- The `j2len` invariant of the `find_longest_match` DP while row `i` is
being processed: each entry `(j, v)` is a length-`v` equal window ending at
`(i - 1, j)`, with `v` bounded by both distances to the window floor. -/
def rowInv {α : Type} (a b : List α) (alo blo bhi i : Nat) (m : List (Nat × Nat)) : Prop :=
  ∀ p ∈ m, blo ≤ p.1 ∧ p.1 < bhi ∧ 1 ≤ p.2 ∧ p.2 ≤ p.1 + 1 - blo ∧ p.2 ≤ i - alo ∧
    winEndEq a b (i - 1) p.1 p.2

/-- A `foldl` preserves any invariant its step preserves. -/
theorem foldl_inv {α β : Type} (f : β → α → β) (l : List α) (P : β → Prop) :
    ∀ init, P init → (∀ s, P s → ∀ x ∈ l, P (f s x)) → P (l.foldl f init) := by
  induction l with
  | nil => intro init h _; exact h
  | cons x xs ih =>
    intro init h hstep
    exact ih (f init x) (hstep init h x (List.mem_cons_self x xs))
      (fun s hs y hy => hstep s hs y (List.mem_cons_of_mem x hy))

/-- In-bounds `getElem?` in terms of `getD`. -/
theorem getElem?_eq_some_getD {α : Type} (l : List α) (i : Nat) (d : α) (h : i < l.length) :
    l[i]? = some (l.getD i d) := by
  rw [List.getD_eq_getElem?_getD, List.getElem?_eq_getElem h]
  rfl

/-- `setdefault` + `append` keeps the index map sound. -/
theorem b2jAdd_sound {α : Type} [DecidableEq α] (b : List α) (m : List (α × List Nat))
    (x : α) (i : Nat) (hx : b[i]? = some x) :
    b2jSound b m → b2jSound b (b2jAdd m x i) := by
  induction m with
  | nil =>
    intro _ p hp j hj
    rcases List.mem_singleton.1 hp with rfl
    rcases List.mem_singleton.1 hj with rfl
    exact hx
  | cons q rest ih =>
    intro hm
    obtain ⟨y, js⟩ := q
    unfold b2jAdd
    split
    · rename_i hyx
      intro p hp j hj
      rcases List.mem_cons.1 hp with rfl | hp'
      · rcases List.mem_append.1 hj with hj' | hj'
        · exact hm (y, js) (List.mem_cons_self _ _) j hj'
        · rcases List.mem_singleton.1 hj' with rfl
          rw [hyx]
          exact hx
      · exact hm p (List.mem_cons_of_mem _ hp') j hj
    · intro p hp j hj
      rcases List.mem_cons.1 hp with rfl | hp'
      · exact hm _ (List.mem_cons_self _ _) j hj
      · exact ih (fun q hq => hm q (List.mem_cons_of_mem _ hq)) p hp' j hj

/-- The raw index map of `__chain_b` is sound. -/
theorem b2jRaw_sound {α : Type} [DecidableEq α] (b : List α) : b2jSound b (b2jRaw b) := by
  unfold b2jRaw
  refine foldl_inv _ _ (b2jSound b) []
    (fun p hp => absurd hp (List.not_mem_nil p)) ?_
  intro s hs q hq
  obtain ⟨i, x⟩ := q
  exact b2jAdd_sound b s x i (List.mem_enum_iff_getElem?.1 hq) hs

/-- Junk and popularity purges keep the index map sound. -/
theorem b2jOf_sound {α : Type} [DecidableEq α] (isjunk : α → Bool) (b : List α) :
    b2jSound b (b2jOf isjunk b) := by
  intro p hp
  have hp' : p ∈ b2jRaw b := by
    unfold b2jOf at hp
    dsimp only at hp
    split at hp
    · exact List.mem_of_mem_filter (List.mem_of_mem_filter hp)
    · exact List.mem_of_mem_filter hp
  exact b2jRaw_sound b p hp'

/-- The inner loop of the `find_longest_match` DP preserves the row
invariant and produces a correct best match. -/
theorem flmInner_spec {α : Type} (a b : List α) (alo ahi blo bhi i : Nat)
    (hi1 : alo ≤ i) (hi2 : i < ahi) :
    ∀ (js : List Nat) (j2len newacc : List (Nat × Nat)) (best : PyMatch),
      rowInv a b alo blo bhi i j2len →
      (∀ j ∈ js, b[j]? = a[i]?) →
      rowInv a b alo blo bhi (i + 1) newacc →
      bestInv a b alo ahi blo bhi best →
      rowInv a b alo blo bhi (i + 1) (flmInner blo bhi i j2len js newacc best).1 ∧
        bestInv a b alo ahi blo bhi (flmInner blo bhi i j2len js newacc best).2 := by
  intro js
  induction js with
  | nil =>
    intro j2len newacc best _ _ h3 h4
    exact ⟨h3, h4⟩
  | cons j js ih =>
    intro j2len newacc best h1 h2 h3 h4
    unfold flmInner
    split
    · exact ih j2len newacc best h1 (fun j' hj' => h2 j' (List.mem_cons_of_mem _ hj')) h3 h4
    · split
      · exact ⟨h3, h4⟩
      · rename_i hjlo hjhi
        dsimp only
        obtain ⟨v, hv⟩ : ∃ v, (if j = 0 then 0 else (alookup j2len (j - 1)).getD 0) = v :=
          ⟨_, rfl⟩
        rw [hv]
        have hij : a[i - 0]? = b[j - 0]? := by
          simpa using (h2 j (List.mem_cons_self _ _)).symm
        have hkk : v + 1 ≤ j + 1 - blo ∧ v + 1 ≤ i + 1 - alo ∧ winEndEq a b i j (v + 1) := by
          by_cases hz : j = 0
          · have hv0 : v = 0 := by rw [if_pos hz] at hv; omega
            subst hv0
            refine ⟨by omega, by omega, ?_⟩
            intro t ht
            cases t with
            | zero => exact hij
            | succ s => exact absurd ht (by omega)
          · rw [if_neg hz] at hv
            rcases hlook : alookup j2len (j - 1) with _ | w
            · have hv0 : v = 0 := by rw [hlook] at hv; simpa using hv.symm
              subst hv0
              refine ⟨by omega, by omega, ?_⟩
              intro t ht
              cases t with
              | zero => exact hij
              | succ s => exact absurd ht (by omega)
            · have hvw : v = w := by rw [hlook] at hv; simpa using hv.symm
              subst hvw
              obtain ⟨e1, e2, e3, e4, e5, hwin⟩ := h1 (j - 1, v) (alookup_mem hlook)
              refine ⟨by omega, by omega, ?_⟩
              intro t ht
              cases t with
              | zero => exact hij
              | succ s =>
                have es : s < v := by omega
                have ea : i - (s + 1) = i - 1 - s := by omega
                have eb : j - (s + 1) = j - 1 - s := by omega
                rw [ea, eb]
                exact hwin s es
        obtain ⟨hb1, hb2, hwin⟩ := hkk
        have hbest : bestInv a b alo ahi blo bhi
            (if v + 1 > best.size then
              (⟨i + 1 - (v + 1), j + 1 - (v + 1), v + 1⟩ : PyMatch)
            else best) := by
          split
          · constructor
            · dsimp only [validM]
              omega
            · dsimp only [winEq]
              intro t ht
              have e1 : i + 1 - (v + 1) + t = i - (v + 1 - 1 - t) := by omega
              have e2 : j + 1 - (v + 1) + t = j - (v + 1 - 1 - t) := by omega
              rw [e1, e2]
              exact hwin (v + 1 - 1 - t) (by omega)
          · exact h4
        refine ih j2len _ _ h1 (fun j' hj' => h2 j' (List.mem_cons_of_mem _ hj')) ?_ hbest
        intro p hp
        rcases List.mem_cons.1 hp with rfl | hp'
        · dsimp only
          exact ⟨by omega, by omega, by omega, by omega, by omega, by simpa using hwin⟩
        · exact h3 p hp'

/-- The outer loop of the `find_longest_match` DP produces a correct best
match for the window. -/
theorem flmMain_spec {α : Type} [DecidableEq α] [Inhabited α] (a b : List α)
    (b2jm : List (α × List Nat)) (hsound : b2jSound b b2jm)
    (alo ahi blo bhi : Nat) (hahi : ahi ≤ a.length) :
    ∀ (cnt i : Nat) (j2len : List (Nat × Nat)) (best : PyMatch),
      alo ≤ i → i + cnt ≤ ahi →
      rowInv a b alo blo bhi i j2len →
      bestInv a b alo ahi blo bhi best →
      bestInv a b alo ahi blo bhi (flmMain a b2jm blo bhi (List.range' i cnt) j2len best) := by
  intro cnt
  induction cnt with
  | zero =>
    intro i j2len best _ _ _ h4
    exact h4
  | succ c ih =>
    intro i j2len best hi1 hi2 h3 h4
    rw [List.range'_succ]
    unfold flmMain
    have hjs : ∀ j ∈ (alookup b2jm (a.getD i default)).getD [], b[j]? = a[i]? := by
      intro j hj
      rcases hb : alookup b2jm (a.getD i default) with _ | js'
      · rw [hb] at hj
        exact absurd hj (List.not_mem_nil j)
      · rw [hb] at hj
        simp only [Option.getD_some] at hj
        rw [hsound _ (alookup_mem hb) j hj,
          getElem?_eq_some_getD a i default (by omega)]
    have hrec := flmInner_spec a b alo ahi blo bhi i hi1 (by omega) _ j2len [] best h3 hjs
      (fun p hp => absurd hp (List.not_mem_nil p)) h4
    exact ih (i + 1) _ _ (by omega) (by omega) hrec.1 hrec.2

/-- The first extension `while` preserves match correctness. -/
theorem extLoNoJunk_inv {α : Type} [DecidableEq α] [Inhabited α] (isjunk : α → Bool)
    (a b : List α) (alo blo ahi bhi : Nat) (hahi : ahi ≤ a.length) (hbhi : bhi ≤ b.length) :
    ∀ (fuel : Nat) (best : PyMatch), bestInv a b alo ahi blo bhi best →
      bestInv a b alo ahi blo bhi (extLoNoJunk isjunk a b alo blo fuel best) := by
  intro fuel
  induction fuel with
  | zero => intro best h; exact h
  | succ f ih =>
    intro best h
    unfold extLoNoJunk
    split
    · rename_i hg
      simp only [Bool.and_eq_true, decide_eq_true_eq] at hg
      obtain ⟨⟨⟨hga, hgb⟩, _⟩, hgeq⟩ := hg
      obtain ⟨⟨hv1, hv2, hv3, hv4⟩, hw⟩ := h
      refine ih _ ⟨by dsimp only [validM]; omega, ?_⟩
      dsimp only [winEq]
      intro t ht
      cases t with
      | zero =>
        have e1 : best.a - 1 + 0 = best.a - 1 := by omega
        have e2 : best.b - 1 + 0 = best.b - 1 := by omega
        rw [e1, e2, getElem?_eq_some_getD a _ default (by omega),
          getElem?_eq_some_getD b _ default (by omega), hgeq]
      | succ s =>
        have e1 : best.a - 1 + (s + 1) = best.a + s := by omega
        have e2 : best.b - 1 + (s + 1) = best.b + s := by omega
        rw [e1, e2]
        exact hw s (by omega)
    · exact h

/-- The second extension `while` preserves match correctness. -/
theorem extHiNoJunk_inv {α : Type} [DecidableEq α] [Inhabited α] (isjunk : α → Bool)
    (a b : List α) (alo blo ahi bhi : Nat) (hahi : ahi ≤ a.length) (hbhi : bhi ≤ b.length) :
    ∀ (fuel : Nat) (best : PyMatch), bestInv a b alo ahi blo bhi best →
      bestInv a b alo ahi blo bhi (extHiNoJunk isjunk a b ahi bhi fuel best) := by
  intro fuel
  induction fuel with
  | zero => intro best h; exact h
  | succ f ih =>
    intro best h
    unfold extHiNoJunk
    split
    · rename_i hg
      simp only [Bool.and_eq_true, decide_eq_true_eq] at hg
      obtain ⟨⟨⟨hga, hgb⟩, _⟩, hgeq⟩ := hg
      obtain ⟨⟨hv1, hv2, hv3, hv4⟩, hw⟩ := h
      refine ih _ ⟨by dsimp only [validM]; omega, ?_⟩
      dsimp only [winEq]
      intro t ht
      by_cases hts : t < best.size
      · exact hw t hts
      · have e : t = best.size := by omega
        subst e
        rw [getElem?_eq_some_getD a _ default (by omega),
          getElem?_eq_some_getD b _ default (by omega), hgeq]
    · exact h

/-- The third extension `while` preserves match correctness. -/
theorem extLoJunk_inv {α : Type} [DecidableEq α] [Inhabited α] (isjunk : α → Bool)
    (a b : List α) (alo blo ahi bhi : Nat) (hahi : ahi ≤ a.length) (hbhi : bhi ≤ b.length) :
    ∀ (fuel : Nat) (best : PyMatch), bestInv a b alo ahi blo bhi best →
      bestInv a b alo ahi blo bhi (extLoJunk isjunk a b alo blo fuel best) := by
  intro fuel
  induction fuel with
  | zero => intro best h; exact h
  | succ f ih =>
    intro best h
    unfold extLoJunk
    split
    · rename_i hg
      simp only [Bool.and_eq_true, decide_eq_true_eq] at hg
      obtain ⟨⟨⟨hga, hgb⟩, _⟩, hgeq⟩ := hg
      obtain ⟨⟨hv1, hv2, hv3, hv4⟩, hw⟩ := h
      refine ih _ ⟨by dsimp only [validM]; omega, ?_⟩
      dsimp only [winEq]
      intro t ht
      cases t with
      | zero =>
        have e1 : best.a - 1 + 0 = best.a - 1 := by omega
        have e2 : best.b - 1 + 0 = best.b - 1 := by omega
        rw [e1, e2, getElem?_eq_some_getD a _ default (by omega),
          getElem?_eq_some_getD b _ default (by omega), hgeq]
      | succ s =>
        have e1 : best.a - 1 + (s + 1) = best.a + s := by omega
        have e2 : best.b - 1 + (s + 1) = best.b + s := by omega
        rw [e1, e2]
        exact hw s (by omega)
    · exact h

/-- The fourth extension `while` preserves match correctness. -/
theorem extHiJunk_inv {α : Type} [DecidableEq α] [Inhabited α] (isjunk : α → Bool)
    (a b : List α) (alo blo ahi bhi : Nat) (hahi : ahi ≤ a.length) (hbhi : bhi ≤ b.length) :
    ∀ (fuel : Nat) (best : PyMatch), bestInv a b alo ahi blo bhi best →
      bestInv a b alo ahi blo bhi (extHiJunk isjunk a b ahi bhi fuel best) := by
  intro fuel
  induction fuel with
  | zero => intro best h; exact h
  | succ f ih =>
    intro best h
    unfold extHiJunk
    split
    · rename_i hg
      simp only [Bool.and_eq_true, decide_eq_true_eq] at hg
      obtain ⟨⟨⟨hga, hgb⟩, _⟩, hgeq⟩ := hg
      obtain ⟨⟨hv1, hv2, hv3, hv4⟩, hw⟩ := h
      refine ih _ ⟨by dsimp only [validM]; omega, ?_⟩
      dsimp only [winEq]
      intro t ht
      by_cases hts : t < best.size
      · exact hw t hts
      · have e : t = best.size := by omega
        subst e
        rw [getElem?_eq_some_getD a _ default (by omega),
          getElem?_eq_some_getD b _ default (by omega), hgeq]
    · exact h

/-- `find_longest_match` returns a match inside its window whose two sides
are elementwise equal. -/
theorem find_longest_match_spec {α : Type} [DecidableEq α] [Inhabited α] (isjunk : α → Bool)
    (a b : List α) (b2jm : List (α × List Nat)) (hsound : b2jSound b b2jm)
    (alo ahi blo bhi : Nat) (h1 : alo ≤ ahi) (h2 : blo ≤ bhi)
    (hahi : ahi ≤ a.length) (hbhi : bhi ≤ b.length) :
    bestInv a b alo ahi blo bhi (find_longest_match isjunk a b b2jm alo ahi blo bhi) := by
  have h0 : bestInv a b alo ahi blo bhi ⟨alo, blo, 0⟩ := by
    refine ⟨by dsimp only [validM]; omega, ?_⟩
    dsimp only [winEq]
    intro t ht
    exact absurd ht (by omega)
  have hm := flmMain_spec a b b2jm hsound alo ahi blo bhi hahi (ahi - alo) alo [] ⟨alo, blo, 0⟩
    (le_refl _) (by omega) (fun p hp => absurd hp (List.not_mem_nil p)) h0
  unfold find_longest_match
  exact extHiJunk_inv isjunk a b alo blo ahi bhi hahi hbhi _ _
    (extLoJunk_inv isjunk a b alo blo ahi bhi hahi hbhi _ _
      (extHiNoJunk_inv isjunk a b alo blo ahi bhi hahi hbhi _ _
        (extLoNoJunk_inv isjunk a b alo blo ahi bhi hahi hbhi _ _ hm)))

/-- A well-formed queue region `(alo, ahi, blo, bhi)` within the two
sequences. -/
def regionOk (la lb : Nat) (R : Nat × Nat × Nat × Nat) : Prop :=
  R.1 ≤ R.2.1 ∧ R.2.1 ≤ la ∧ R.2.2.1 ≤ R.2.2.2 ∧ R.2.2.2 ≤ lb

/-- Every block inside region `R` is separated from match `m`. -/
def regionSepM (R : Nat × Nat × Nat × Nat) (m : PyMatch) : Prop :=
  (R.2.1 ≤ m.a ∧ R.2.2.2 ≤ m.b) ∨ (m.a + m.size ≤ R.1 ∧ m.b + m.size ≤ R.2.2.1)

/-- Every block inside region `R` is separated from every block inside
region `S`. -/
def regionSepR (R S : Nat × Nat × Nat × Nat) : Prop :=
  (R.2.1 ≤ S.1 ∧ R.2.2.2 ≤ S.2.2.1) ∨ (S.2.1 ≤ R.1 ∧ S.2.2.2 ≤ R.2.2.1)

/-- A nonempty correct matching block of the whole sequences. -/
def blockOk {α : Type} (a b : List α) (m : PyMatch) : Prop :=
  1 ≤ m.size ∧ validM 0 a.length 0 b.length m ∧ winEq a b m

/-- The queue loop of `get_matching_blocks` yields correct, pairwise
separated blocks. -/
theorem mbQueue_spec {α : Type} [DecidableEq α] [Inhabited α] (isjunk : α → Bool)
    (a b : List α) (b2jm : List (α × List Nat)) (hsound : b2jSound b b2jm) :
    ∀ (fuel : Nat) (queue : List (Nat × Nat × Nat × Nat)) (acc : List PyMatch),
      (∀ R ∈ queue, regionOk a.length b.length R) →
      List.Pairwise regionSepR queue →
      (∀ m ∈ acc, blockOk a b m) →
      List.Pairwise (fun y z => sepM y z ∨ sepM z y) acc →
      (∀ R ∈ queue, ∀ m ∈ acc, regionSepM R m) →
      (∀ m ∈ mbQueue isjunk a b b2jm fuel queue acc, blockOk a b m) ∧
        List.Pairwise (fun y z => sepM y z ∨ sepM z y)
          (mbQueue isjunk a b b2jm fuel queue acc) := by
  intro fuel
  induction fuel with
  | zero =>
    intro queue acc _ _ h3 h4 _
    exact ⟨h3, h4⟩
  | succ f ih =>
    intro queue acc h1 h2 h3 h4 h5
    cases queue with
    | nil => exact ⟨h3, h4⟩
    | cons R rest =>
      obtain ⟨alo, ahi, blo, bhi⟩ := R
      have hRok := h1 _ (List.mem_cons_self _ _)
      dsimp only [regionOk] at hRok
      obtain ⟨hr1, hr2, hr3, hr4⟩ := hRok
      have hx := find_longest_match_spec isjunk a b b2jm hsound alo ahi blo bhi hr1 hr3 hr2 hr4
      obtain ⟨hxv, hxw⟩ := hx
      dsimp only [validM] at hxv
      obtain ⟨hv1, hv2, hv3, hv4⟩ := hxv
      have h2c := List.pairwise_cons.1 h2
      have h2head := h2c.1
      have h2tail := h2c.2
      have h1tail : ∀ S ∈ rest, regionOk a.length b.length S :=
        fun S hS => h1 S (List.mem_cons_of_mem _ hS)
      have h5head : ∀ m ∈ acc, regionSepM (alo, ahi, blo, bhi) m :=
        h5 _ (List.mem_cons_self _ _)
      have h5tail : ∀ S ∈ rest, ∀ m ∈ acc, regionSepM S m :=
        fun S hS => h5 S (List.mem_cons_of_mem _ hS)
      unfold mbQueue
      dsimp only
      split
      · rename_i hsz
        -- the found block x is kept and the region is split around it
        set x := find_longest_match isjunk a b b2jm alo ahi blo bhi with hxdef
        have hxok : blockOk a b x := by
          refine ⟨by omega, by dsimp only [validM]; omega, hxw⟩
        have hxacc : ∀ m ∈ acc, sepM m x ∨ sepM x m := by
          intro m hm
          have := h5head m hm
          dsimp only [regionSepM] at this
          dsimp only [sepM]
          omega
        have hC : ∀ m ∈ acc ++ [x], blockOk a b m := by
          intro m hm
          rcases List.mem_append.1 hm with hm' | hm'
          · exact h3 m hm'
          · rcases List.mem_singleton.1 hm' with rfl
            exact hxok
        have hD : List.Pairwise (fun y z => sepM y z ∨ sepM z y) (acc ++ [x]) := by
          refine List.pairwise_append.2 ⟨h4, List.pairwise_singleton _ _, ?_⟩
          intro y hy z hz
          rcases List.mem_singleton.1 hz with rfl
          rcases hxacc y hy with h | h
          · exact Or.inl h
          · exact Or.inr h
        have hrestx : ∀ S ∈ rest, regionSepM S x := by
          intro S hS
          have := h2head S hS
          dsimp only [regionSepR] at this
          dsimp only [regionSepM]
          omega
        refine ih _ _ ?_ ?_ hC hD ?_
        · -- all regions of the new queue are well formed
          intro S hS
          split at hS
          · rcases List.mem_cons.1 hS with rfl | hS'
            · dsimp only [regionOk]
              omega
            · split at hS'
              · rcases List.mem_cons.1 hS' with rfl | hS''
                · dsimp only [regionOk]
                  omega
                · exact h1tail S hS''
              · exact h1tail S hS'
          · split at hS
            · rcases List.mem_cons.1 hS with rfl | hS'
              · dsimp only [regionOk]
                omega
              · exact h1tail S hS'
            · exact h1tail S hS
        · -- the new queue is pairwise separated
          have hR1rest : ∀ S ∈ rest, regionSepR (alo, x.a, blo, x.b) S := by
            intro S hS
            have := h2head S hS
            dsimp only [regionSepR] at this ⊢
            omega
          have hR2rest : ∀ S ∈ rest, regionSepR (x.a + x.size, ahi, x.b + x.size, bhi) S := by
            intro S hS
            have := h2head S hS
            dsimp only [regionSepR] at this ⊢
            omega
          split
          · rename_i hq2
            refine List.pairwise_cons.2 ⟨?_, ?_⟩
            · intro S hS
              split at hS
              · rcases List.mem_cons.1 hS with rfl | hS'
                · dsimp only [regionSepR]
                  omega
                · exact hR2rest S hS'
              · exact hR2rest S hS
            · split
              · exact List.pairwise_cons.2 ⟨hR1rest, h2tail⟩
              · exact h2tail
          · split
            · exact List.pairwise_cons.2 ⟨hR1rest, h2tail⟩
            · exact h2tail
        · -- every new region is separated from every kept block
          have hsep1 : ∀ m ∈ acc ++ [x], regionSepM (alo, x.a, blo, x.b) m := by
            intro m hm
            rcases List.mem_append.1 hm with hm' | hm'
            · have := h5head m hm'
              dsimp only [regionSepM] at this ⊢
              omega
            · rcases List.mem_singleton.1 hm' with rfl
              dsimp only [regionSepM]
              omega
          have hsep2 : ∀ m ∈ acc ++ [x],
              regionSepM (x.a + x.size, ahi, x.b + x.size, bhi) m := by
            intro m hm
            rcases List.mem_append.1 hm with hm' | hm'
            · have := h5head m hm'
              dsimp only [regionSepM] at this ⊢
              omega
            · rcases List.mem_singleton.1 hm' with rfl
              dsimp only [regionSepM]
              omega
          have hsep3 : ∀ S ∈ rest, ∀ m ∈ acc ++ [x], regionSepM S m := by
            intro S hS m hm
            rcases List.mem_append.1 hm with hm' | hm'
            · exact h5tail S hS m hm'
            · rcases List.mem_singleton.1 hm' with rfl
              exact hrestx S hS
          intro S hS
          split at hS
          · rcases List.mem_cons.1 hS with rfl | hS'
            · exact hsep2
            · split at hS'
              · rcases List.mem_cons.1 hS' with rfl | hS''
                · exact hsep1
                · exact hsep3 S hS''
              · exact hsep3 S hS'
          · split at hS
            · rcases List.mem_cons.1 hS with rfl | hS'
              · exact hsep1
              · exact hsep3 S hS'
            · exact hsep3 S hS
      · exact ih rest acc h1tail h2tail h3 h4 h5tail

/-- Sorted, pairwise separated, nonempty blocks form a `sepM` chain. -/
theorem chain_of_sorted_sep :
    ∀ l : List PyMatch, List.Pairwise matchLe l →
      List.Pairwise (fun y z => sepM y z ∨ sepM z y) l →
      (∀ m ∈ l, 1 ≤ m.size) → List.Chain' sepM l := by
  intro l
  induction l with
  | nil =>
    intro _ _ _
    exact List.chain'_nil
  | cons y rest ih =>
    intro hs hp hsz
    have hsc := List.pairwise_cons.1 hs
    have hpc := List.pairwise_cons.1 hp
    refine List.chain'_cons'.2
      ⟨?_, ih hsc.2 hpc.2 (fun m hm => hsz m (List.mem_cons_of_mem _ hm))⟩
    intro z hz
    have hzmem : z ∈ rest := List.mem_of_mem_head? hz
    have h1 := hsc.1 z hzmem
    have h2 := hpc.1 z hzmem
    have h3 := hsz y (List.mem_cons_self _ _)
    have h4 := hsz z (List.mem_cons_of_mem _ hzmem)
    unfold matchLe at h1
    dsimp only [sepM] at h2 ⊢
    omega

/-- The collapsing loop keeps correctness, the separation chain, and never
emits a block left of its accumulator. -/
theorem collapseGo_spec {α : Type} (a b : List α) :
    ∀ (l : List PyMatch) (cur : PyMatch),
      validM 0 a.length 0 b.length cur → winEq a b cur →
      (∀ m ∈ l, validM 0 a.length 0 b.length m ∧ winEq a b m) →
      List.Chain' sepM (cur :: l) →
      (∀ m ∈ collapseGo cur l, validM 0 a.length 0 b.length m ∧ winEq a b m) ∧
        List.Chain' sepM (collapseGo cur l) ∧
        (∀ m ∈ collapseGo cur l, cur.a ≤ m.a ∧ cur.b ≤ m.b) := by
  intro l
  induction l with
  | nil =>
    intro cur h1 h2 _ _
    unfold collapseGo
    split
    · refine ⟨?_, List.chain'_singleton _, ?_⟩
      · intro m hm
        rcases List.mem_singleton.1 hm with rfl
        exact ⟨h1, h2⟩
      · intro m hm
        rcases List.mem_singleton.1 hm with rfl
        exact ⟨le_refl _, le_refl _⟩
    · exact ⟨fun m hm => absurd hm (List.not_mem_nil m), List.chain'_nil,
        fun m hm => absurd hm (List.not_mem_nil m)⟩
  | cons x rest ih =>
    intro cur h1 h2 h3 hchain
    have hcx : sepM cur x := (List.chain'_cons.1 hchain).1
    have hchain' : List.Chain' sepM (x :: rest) := (List.chain'_cons.1 hchain).2
    have hxok := h3 x (List.mem_cons_self _ _)
    have h3tail : ∀ m ∈ rest, validM 0 a.length 0 b.length m ∧ winEq a b m :=
      fun m hm => h3 m (List.mem_cons_of_mem _ hm)
    unfold collapseGo
    split
    · rename_i hadj
      obtain ⟨hadja, hadjb⟩ := hadj
      have hmv : validM 0 a.length 0 b.length ⟨cur.a, cur.b, cur.size + x.size⟩ := by
        have hv := hxok.1
        dsimp only [validM] at hv ⊢
        omega
      have hmw : winEq a b ⟨cur.a, cur.b, cur.size + x.size⟩ := by
        dsimp only [winEq]
        intro t ht
        by_cases hts : t < cur.size
        · exact h2 t hts
        · have e1 : cur.a + t = x.a + (t - cur.size) := by omega
          have e2 : cur.b + t = x.b + (t - cur.size) := by omega
          rw [e1, e2]
          exact hxok.2 (t - cur.size) (by omega)
      have hmchain :
          List.Chain' sepM ((⟨cur.a, cur.b, cur.size + x.size⟩ : PyMatch) :: rest) := by
        refine List.chain'_cons'.2 ⟨?_, (List.chain'_cons'.1 hchain').2⟩
        intro y hy
        have := (List.chain'_cons'.1 hchain').1 y hy
        dsimp only [sepM] at this ⊢
        omega
      obtain ⟨g1, g2, g3⟩ := ih ⟨cur.a, cur.b, cur.size + x.size⟩ hmv hmw h3tail hmchain
      refine ⟨g1, g2, ?_⟩
      intro m hm
      have := g3 m hm
      dsimp only at this
      exact this
    · obtain ⟨g1, g2, g3⟩ := ih x hxok.1 hxok.2 h3tail hchain'
      split
      · rw [List.singleton_append]
        refine ⟨?_, ?_, ?_⟩
        · intro m hm
          rcases List.mem_cons.1 hm with rfl | hm'
          · exact ⟨h1, h2⟩
          · exact g1 m hm'
        · refine List.chain'_cons'.2 ⟨?_, g2⟩
          intro y hy
          have := g3 y (List.mem_of_mem_head? hy)
          dsimp only [sepM] at hcx ⊢
          omega
        · intro m hm
          rcases List.mem_cons.1 hm with rfl | hm'
          · exact ⟨le_refl _, le_refl _⟩
          · have := g3 m hm'
            dsimp only [sepM] at hcx
            exact ⟨by omega, by omega⟩
      · rw [List.nil_append]
        refine ⟨g1, g2, ?_⟩
        intro m hm
        have := g3 m hm
        dsimp only [sepM] at hcx
        exact ⟨by omega, by omega⟩

/-- `get_matching_blocks`: every block is correct, the blocks form a
separation chain, and the list ends in the sentinel. -/
theorem get_matching_blocks_spec {α : Type} [DecidableEq α] [Inhabited α]
    (isjunk : α → Bool) (a b : List α) :
    (∀ m ∈ get_matching_blocks isjunk a b,
      validM 0 a.length 0 b.length m ∧ winEq a b m) ∧
      List.Chain' sepM (get_matching_blocks isjunk a b) ∧
      (get_matching_blocks isjunk a b).getLast? = some ⟨a.length, b.length, 0⟩ := by
  unfold get_matching_blocks
  dsimp only
  have hq := mbQueue_spec isjunk a b (b2jOf isjunk b) (b2jOf_sound isjunk b)
    (a.length + b.length + 1) [(0, a.length, 0, b.length)] []
    (by
      intro R hR
      rcases List.mem_singleton.1 hR with rfl
      dsimp only [regionOk]
      omega)
    (List.pairwise_singleton _ _)
    (fun m hm => absurd hm (List.not_mem_nil m))
    List.Pairwise.nil
    (by intro R hR m hm; exact absurd hm (List.not_mem_nil m))
  obtain ⟨hq1, hq2⟩ := hq
  set raw := mbQueue isjunk a b (b2jOf isjunk b) (a.length + b.length + 1)
    [(0, a.length, 0, b.length)] [] with hraw
  set srt := List.insertionSort matchLe raw with hsrt
  have hperm : srt.Perm raw := List.perm_insertionSort matchLe raw
  have hmem : ∀ m ∈ srt, blockOk a b m := fun m hm => hq1 m (hperm.mem_iff.1 hm)
  have hpair : List.Pairwise (fun y z => sepM y z ∨ sepM z y) srt := by
    refine (hperm.pairwise_iff ?_).2 hq2
    intro y z h
    rcases h with h | h
    · exact Or.inr h
    · exact Or.inl h
  have hsorted : List.Pairwise matchLe srt := List.sorted_insertionSort matchLe raw
  have hchain : List.Chain' sepM srt :=
    chain_of_sorted_sep srt hsorted hpair (fun m hm => (hmem m hm).1)
  have hcc : List.Chain' sepM ((⟨0, 0, 0⟩ : PyMatch) :: srt) := by
    refine List.chain'_cons'.2 ⟨?_, hchain⟩
    intro y _
    dsimp only [sepM]
    omega
  obtain ⟨hc1, hc2, hc3⟩ := collapseGo_spec a b srt ⟨0, 0, 0⟩
    (by dsimp only [validM]; omega)
    (by dsimp only [winEq]; intro t ht; exact absurd ht (by omega))
    (fun m hm => ⟨(hmem m hm).2.1, (hmem m hm).2.2⟩)
    hcc
  refine ⟨?_, ?_, List.getLast?_concat _⟩
  · intro m hm
    rcases List.mem_append.1 hm with hm' | hm'
    · exact hc1 m hm'
    · rcases List.mem_singleton.1 hm' with rfl
      refine ⟨by dsimp only [validM]; omega, ?_⟩
      dsimp only [winEq]
      intro t ht
      exact absurd ht (by omega)
  · refine List.chain'_append.2 ⟨hc2, List.chain'_singleton _, ?_⟩
    intro y hy z hz
    have hz' : (⟨a.length, b.length, 0⟩ : PyMatch) = z := by simpa using hz
    subst hz'
    have := (hc1 y (List.mem_of_mem_getLast? hy)).1
    dsimp only [validM] at this
    dsimp only [sepM]
    omega

/-- The empty list is a prefix of every list. -/
theorem isPrefixOf_nil_left (l : List Char) : List.isPrefixOf [] l = true := by
  cases l <;> rfl

/-- A list is a prefix of itself followed by anything. -/
theorem isPrefixOf_append_self : ∀ (l1 l2 : List Char), l1.isPrefixOf (l1 ++ l2) = true := by
  intro l1
  induction l1 with
  | nil => intro l2; exact isPrefixOf_nil_left l2
  | cons c cs ih =>
    intro l2
    show (c == c && cs.isPrefixOf (cs ++ l2)) = true
    rw [ih l2, beq_self_eq_true]
    rfl

/-- `startswith` holds on an appended copy of the pattern. -/
theorem pyStartsWith_self_append (p e : String) : pyStartsWith (p ++ e) p = true := by
  unfold pyStartsWith
  rw [String.data_append]
  exact isPrefixOf_append_self p.data e.data

/-- Two-character prefix test, reduced to character comparisons. -/
theorem isPrefixOf_two_cons (d1 d2 c1 c2 : Char) (l : List Char) :
    List.isPrefixOf [d1, d2] (c1 :: c2 :: l) = (d1 == c1 && d2 == c2) := by
  show (d1 == c1 && (d2 == c2 && List.isPrefixOf [] l)) = (d1 == c1 && d2 == c2)
  rw [isPrefixOf_nil_left l, Bool.and_true]

/-- Appending after a two-character string conses its characters. -/
theorem data_two_append (p e : String) (c1 c2 : Char) (hp : p.data = [c1, c2]) :
    (p ++ e).data = c1 :: c2 :: e.data := by
  rw [String.data_append, hp]
  rfl

/-- `startswith` a two-character pattern on a string of known head shape. -/
theorem psw_shape (s q : String) (c1 c2 d1 d2 : Char) (r : List Char)
    (hs : s.data = c1 :: c2 :: r) (hq : q.data = [d1, d2]) :
    pyStartsWith s q = (d1 == c1 && d2 == c2) := by
  unfold pyStartsWith
  rw [hs, hq]
  exact isPrefixOf_two_cons d1 d2 c1 c2 r

/-- `s[2:]` on a string of known two-character head shape. -/
theorem pyDrop_two_of_data (s : String) (c1 c2 : Char) (r : List Char)
    (hs : s.data = c1 :: c2 :: r) : pyDrop s 2 = String.mk r := by
  unfold pyDrop
  rw [hs]
  rfl

/-- `(p ++ e)[2:] = e` for a two-character `p`. -/
theorem pyDrop_two (p e : String) (c1 c2 : Char) (hp : p.data = [c1, c2]) :
    pyDrop (p ++ e) 2 = e := by
  unfold pyDrop
  rw [data_two_append p e c1 c2 hp]
  rfl

theorem projNew_nil : projNew [] = [] := rfl

theorem projNew_cons (w : String) (rest : List String) :
    projNew (w :: rest) =
      (if pyStartsWith w "  " || pyStartsWith w "+ " then [pyDrop w 2] else []) ++
        projNew rest := by
  show (if pyStartsWith w "  " || pyStartsWith w "+ " then pyDrop w 2 :: projNew rest
    else projNew rest) = _
  split
  · rw [List.singleton_append]
  · rw [List.nil_append]

theorem projNew_append (l1 l2 : List String) :
    projNew (l1 ++ l2) = projNew l1 ++ projNew l2 := by
  induction l1 with
  | nil => rw [List.nil_append, projNew_nil, List.nil_append]
  | cons w rest ih =>
    rw [List.cons_append, projNew_cons, projNew_cons, ih, List.append_assoc]

/-- A line whose two head characters fail both keep-tests is dropped. -/
theorem projNew_skip (w : String) (c1 c2 : Char) (r : List Char) (hw : w.data = c1 :: c2 :: r)
    (h1 : (' ' == c1 && ' ' == c2) = false) (h2 : ('+' == c1 && ' ' == c2) = false)
    (rest : List String) : projNew (w :: rest) = projNew rest := by
  rw [projNew_cons, psw_shape w "  " c1 c2 ' ' ' ' r hw rfl,
    psw_shape w "+ " c1 c2 '+' ' ' r hw rfl, h1, h2]
  rfl

/-- A line whose two head characters pass a keep-test contributes its
payload. -/
theorem projNew_keep (w : String) (c1 c2 : Char) (r : List Char) (hw : w.data = c1 :: c2 :: r)
    (h : ((' ' == c1 && ' ' == c2) || ('+' == c1 && ' ' == c2)) = true)
    (rest : List String) : projNew (w :: rest) = String.mk r :: projNew rest := by
  rw [projNew_cons, psw_shape w "  " c1 c2 ' ' ' ' r hw rfl,
    psw_shape w "+ " c1 c2 '+' ' ' r hw rfl, h, if_pos rfl,
    pyDrop_two_of_data w c1 c2 r hw, List.singleton_append]

/-- An empty slice. -/
theorem sliceL_empty {α : Type} (l : List α) (lo hi : Nat) (h : hi ≤ lo) :
    sliceL l lo hi = [] := by
  unfold sliceL
  rw [show hi - lo = 0 by omega]
  exact List.take_zero _

/-- Peeling the first element of a nonempty slice. -/
theorem sliceL_peel {α : Type} (l : List α) (lo hi : Nat) (h1 : lo < hi)
    (h2 : lo < l.length) :
    sliceL l lo hi = l.get ⟨lo, h2⟩ :: sliceL l (lo + 1) hi := by
  unfold sliceL
  rw [List.drop_eq_getElem_cons h2, show hi - lo = (hi - (lo + 1)) + 1 by omega,
    List.take_succ_cons]
  rfl

/-- A singleton slice. -/
theorem sliceL_single {α : Type} (l : List α) (lo : Nat) (d : α) (h : lo < l.length) :
    sliceL l lo (lo + 1) = [l.getD lo d] := by
  rw [sliceL_peel l lo (lo + 1) (by omega) h,
    sliceL_empty l (lo + 1) (lo + 1) (le_refl _)]
  have hg : l.getD lo d = l.get ⟨lo, h⟩ := by
    rw [List.getD_eq_getElem?_getD, List.getElem?_eq_getElem h]
    rfl
  rw [hg]

/-- Adjacent slices concatenate. -/
theorem sliceL_app {α : Type} (l : List α) :
    ∀ (k lo mid hi : Nat), lo + k = mid → mid ≤ hi →
      sliceL l lo mid ++ sliceL l mid hi = sliceL l lo hi := by
  intro k
  induction k with
  | zero =>
    intro lo mid hi h1 h2
    rw [show lo = mid by omega, sliceL_empty l mid mid (le_refl _), List.nil_append]
  | succ n ih =>
    intro lo mid hi h1 h2
    by_cases hl : lo < l.length
    · rw [sliceL_peel l lo mid (by omega) hl, sliceL_peel l lo hi (by omega) hl,
        List.cons_append, ih (lo + 1) mid hi (by omega) h2]
    · unfold sliceL
      rw [List.drop_eq_nil_of_le (show l.length ≤ lo by omega),
        List.drop_eq_nil_of_le (show l.length ≤ mid by omega)]
      simp

/-- Matched windows are equal slices. -/
theorem winEq_slices {α : Type} (a b : List α) (m : PyMatch)
    (hv : validM 0 a.length 0 b.length m) (hw : winEq a b m) :
    sliceL a m.a (m.a + m.size) = sliceL b m.b (m.b + m.size) := by
  apply List.ext_getElem?
  intro t
  unfold sliceL
  rw [List.getElem?_take, List.getElem?_take, show m.a + m.size - m.a = m.size by omega,
    show m.b + m.size - m.b = m.size by omega]
  split
  · rename_i ht
    rw [List.getElem?_drop, List.getElem?_drop]
    exact hw t ht
  · rfl

/-- Removed lines vanish under the `b`-side projection. -/
theorem projNew_map_minus : ∀ ls : List String,
    projNew (ls.map (fun e => "-" ++ " " ++ e)) = [] := by
  intro ls
  induction ls with
  | nil => rfl
  | cons e rest ih =>
    rw [List.map_cons,
      projNew_skip _ '-' ' ' e.data (data_two_append ("-" ++ " ") e '-' ' ' rfl) (by decide) (by decide)]
    exact ih

/-- Inserted lines project to their payloads. -/
theorem projNew_map_plus : ∀ ls : List String,
    projNew (ls.map (fun e => "+" ++ " " ++ e)) = ls := by
  intro ls
  induction ls with
  | nil => rfl
  | cons e rest ih =>
    rw [List.map_cons,
      projNew_keep _ '+' ' ' e.data (data_two_append ("+" ++ " ") e '+' ' ' rfl) (by decide), ih]

/-- Unchanged lines project to their payloads. -/
theorem projNew_map_sp : ∀ ls : List String,
    projNew (ls.map (fun e => " " ++ " " ++ e)) = ls := by
  intro ls
  induction ls with
  | nil => rfl
  | cons e rest ih =>
    rw [List.map_cons,
      projNew_keep _ ' ' ' ' e.data (data_two_append (" " ++ " ") e ' ' ' ' rfl) (by decide), ih]

theorem projNew_dump_minus (x : List String) (lo hi : Nat) :
    projNew (dumpTag "-" x lo hi) = [] :=
  projNew_map_minus _

theorem projNew_dump_plus (x : List String) (lo hi : Nat) :
    projNew (dumpTag "+" x lo hi) = sliceL x lo hi :=
  projNew_map_plus _

theorem projNew_dump_sp (x : List String) (lo hi : Nat) :
    projNew (dumpTag " " x lo hi) = sliceL x lo hi :=
  projNew_map_sp _

/-- `_plain_replace` projects to the inserted slice of `b` in both of its
orderings. -/
theorem projNew_plainReplace (a b : List String) (alo ahi blo bhi : Nat) :
    projNew (plainReplace a b alo ahi blo bhi) = sliceL b blo bhi := by
  unfold plainReplace
  split
  · rw [projNew_append, projNew_dump_plus, projNew_dump_minus, List.append_nil]
  · rw [projNew_append, projNew_dump_minus, projNew_dump_plus, List.nil_append]

/-- `_qformat` projects to exactly the `b`-side line. -/
theorem projNew_qformat (aline bline : String) :
    projNew (qformat aline bline) = [bline] := by
  unfold qformat
  dsimp only
  rw [projNew_append, projNew_append, projNew_append]
  have hminus : projNew ["- " ++ aline] = [] := by
    rw [projNew_skip _ '-' ' ' aline.data (data_two_append "- " aline '-' ' ' rfl)
      (by decide) (by decide)]
    rfl
  have hplus : projNew ["+ " ++ bline] = [bline] := by
    rw [projNew_keep _ '+' ' ' bline.data (data_two_append "+ " bline '+' ' ' rfl) (by decide)]
    rfl
  have hq1 : projNew (if pyRstrip (keepOriginalWs aline (tagsFold aline bline).1) ≠ "" then
      ["? " ++ pyRstrip (keepOriginalWs aline (tagsFold aline bline).1) ++ "\n"]
    else []) = [] := by
    split
    · have hd : ("? " ++ pyRstrip (keepOriginalWs aline (tagsFold aline bline).1)
          ++ "\n").data =
          '?' :: ' ' :: ((pyRstrip (keepOriginalWs aline (tagsFold aline bline).1)).data ++
            "\n".data) := by
        rw [String.data_append,
          data_two_append "? " (pyRstrip (keepOriginalWs aline (tagsFold aline bline).1))
            '?' ' ' rfl]
        rfl
      rw [projNew_skip _ '?' ' ' _ hd (by decide) (by decide)]
      rfl
    · rfl
  have hq2 : projNew (if pyRstrip (keepOriginalWs bline (tagsFold aline bline).2) ≠ "" then
      ["? " ++ pyRstrip (keepOriginalWs bline (tagsFold aline bline).2) ++ "\n"]
    else []) = [] := by
    split
    · have hd : ("? " ++ pyRstrip (keepOriginalWs bline (tagsFold aline bline).2)
          ++ "\n").data =
          '?' :: ' ' :: ((pyRstrip (keepOriginalWs bline (tagsFold aline bline).2)).data ++
            "\n".data) := by
        rw [String.data_append,
          data_two_append "? " (pyRstrip (keepOriginalWs bline (tagsFold aline bline).2))
            '?' ' ' rfl]
        rfl
      rw [projNew_skip _ '?' ' ' _ hd (by decide) (by decide)]
      rfl
    · rfl
  rw [hminus, hplus, hq1, hq2]
  rfl

/-- The `_fancy_replace` search: a still-`none` best keeps the `0.74`
floor; found pairs lie in the window; the identical pair is equal. -/
theorem fancySearch_spec (a b : List String) (alo ahi blo bhi : Nat) :
    ((fancySearch a b alo ahi blo bhi).best = none →
      (fancySearch a b alo ahi blo bhi).bestRatio = (74, 100)) ∧
    (∀ p : Nat × Nat, (fancySearch a b alo ahi blo bhi).best = some p →
      alo ≤ p.1 ∧ p.1 < ahi ∧ blo ≤ p.2 ∧ p.2 < bhi) ∧
    (∀ p : Nat × Nat, (fancySearch a b alo ahi blo bhi).eqij = some p →
      (alo ≤ p.1 ∧ p.1 < ahi ∧ blo ≤ p.2 ∧ p.2 < bhi) ∧
        a.getD p.1 "" = b.getD p.2 "") := by
  unfold fancySearch
  refine foldl_inv _ _ (fun st : FancyState =>
    (st.best = none → st.bestRatio = (74, 100)) ∧
    (∀ p : Nat × Nat, st.best = some p → alo ≤ p.1 ∧ p.1 < ahi ∧ blo ≤ p.2 ∧ p.2 < bhi) ∧
    (∀ p : Nat × Nat, st.eqij = some p →
      (alo ≤ p.1 ∧ p.1 < ahi ∧ blo ≤ p.2 ∧ p.2 < bhi) ∧
        a.getD p.1 "" = b.getD p.2 "")) _ ?_ ?_
  · refine ⟨fun _ => rfl, ?_, ?_⟩
    · intro p hp
      simp at hp
    · intro p hp
      simp at hp
  intro st hst j hj
  have hjb : blo ≤ j ∧ j < bhi := by
    have := List.mem_range'_1.1 hj
    omega
  refine foldl_inv _ _ (fun st : FancyState =>
    (st.best = none → st.bestRatio = (74, 100)) ∧
    (∀ p : Nat × Nat, st.best = some p → alo ≤ p.1 ∧ p.1 < ahi ∧ blo ≤ p.2 ∧ p.2 < bhi) ∧
    (∀ p : Nat × Nat, st.eqij = some p →
      (alo ≤ p.1 ∧ p.1 < ahi ∧ blo ≤ p.2 ∧ p.2 < bhi) ∧
        a.getD p.1 "" = b.getD p.2 "")) st hst ?_
  intro st' hst' i hi
  have hia : alo ≤ i ∧ i < ahi := by
    have := List.mem_range'_1.1 hi
    omega
  dsimp only
  split
  · rename_i heq
    split
    · rename_i hnone
      refine ⟨fun h => hst'.1 h, fun p hp => hst'.2.1 p hp, ?_⟩
      intro p hp
      have hp' : (i, j) = p := by simpa using hp
      subst hp'
      exact ⟨⟨hia.1, hia.2, hjb.1, hjb.2⟩, heq⟩
    · exact hst'
  · split
    · refine ⟨fun h => (nomatch h), ?_, fun p hp => hst'.2.2 p hp⟩
      intro p hp
      have hp' : (i, j) = p := by simpa using hp
      subst hp'
      exact ⟨hia.1, hia.2, hjb.1, hjb.2⟩
    · exact hst'

/-- When the best ratio has moved off the floor, a best pair exists. -/
theorem fancySearch_best_isSome (a b : List String) (alo ahi blo bhi : Nat)
    (h : fracLtF (fancySearch a b alo ahi blo bhi).bestRatio (75, 100) = false) :
    ∃ p : Nat × Nat, (fancySearch a b alo ahi blo bhi).best = some p := by
  rcases hb : (fancySearch a b alo ahi blo bhi).best with _ | p
  · have h74 := (fancySearch_spec a b alo ahi blo bhi).1 hb
    rw [h74] at h
    exact absurd h (by decide)
  · exact ⟨p, rfl⟩

/-- `_fancy_replace` projects to exactly the replaced slice of `b`. -/
theorem fancyReplaceF_proj :
    ∀ (fuel : Nat) (a b : List String) (alo ahi blo bhi : Nat),
      (ahi - alo) + (bhi - blo) ≤ fuel →
      alo < ahi → blo < bhi → ahi ≤ a.length → bhi ≤ b.length →
      projNew (fancyReplaceF fuel a b alo ahi blo bhi) = sliceL b blo bhi := by
  intro fuel
  induction fuel with
  | zero =>
    intro a b alo ahi blo bhi hf h1 h2 _ _
    exact absurd hf (by omega)
  | succ f ih =>
    intro a b alo ahi blo bhi hf h1 h2 h3 h4
    have hspec := fancySearch_spec a b alo ahi blo bhi
    unfold fancyReplaceF
    dsimp only
    split
    · exact projNew_plainReplace a b alo ahi blo bhi
    · rename_i hcond
      by_cases hid : fracLtF (fancySearch a b alo ahi blo bhi).bestRatio (75, 100) = true
      · -- identical synch pair
        rcases he : (fancySearch a b alo ahi blo bhi).eqij with _ | p
        · exfalso
          apply hcond
          rw [hid, he]
          rfl
        · obtain ⟨⟨hp1, hp2, hp3, hp4⟩, hpeq⟩ := hspec.2.2 p he
          rw [if_pos hid, if_pos hid, Option.getD_some]
          rw [projNew_append, projNew_append]
          have hleft : projNew (if alo < p.1 then
              (if blo < p.2 then fancyReplaceF f a b alo p.1 blo p.2
               else dumpTag "-" a alo p.1)
              else if blo < p.2 then dumpTag "+" b blo p.2 else []) =
              sliceL b blo p.2 := by
            split
            · split
              · rename_i ha hb
                exact ih a b alo p.1 blo p.2 (by omega) ha hb (by omega) (by omega)
              · rename_i ha hb
                rw [projNew_dump_minus, sliceL_empty b blo p.2 (by omega)]
            · split
              · rw [projNew_dump_plus]
              · rename_i ha hb
                rw [projNew_nil, sliceL_empty b blo p.2 (by omega)]
          have hmid : projNew ["  " ++ a.getD p.1 ""] = [b.getD p.2 ""] := by
            rw [projNew_keep _ ' ' ' ' (a.getD p.1 "").data
              (data_two_append "  " (a.getD p.1 "") ' ' ' ' rfl) (by decide), projNew_nil,
              show String.mk (a.getD p.1 "").data = a.getD p.1 "" from rfl, hpeq]
          have hright : projNew (if p.1 + 1 < ahi then
              (if p.2 + 1 < bhi then fancyReplaceF f a b (p.1 + 1) ahi (p.2 + 1) bhi
               else dumpTag "-" a (p.1 + 1) ahi)
              else if p.2 + 1 < bhi then dumpTag "+" b (p.2 + 1) bhi else []) =
              sliceL b (p.2 + 1) bhi := by
            split
            · split
              · rename_i ha hb
                exact ih a b (p.1 + 1) ahi (p.2 + 1) bhi (by omega) ha hb h3 h4
              · rename_i ha hb
                rw [projNew_dump_minus, sliceL_empty b (p.2 + 1) bhi (by omega)]
            · split
              · rw [projNew_dump_plus]
              · rename_i ha hb
                rw [projNew_nil, sliceL_empty b (p.2 + 1) bhi (by omega)]
          rw [hleft, hmid, hright, ← sliceL_single b p.2 "" (by omega),
            sliceL_app b (p.2 - blo) blo p.2 (p.2 + 1) (by omega) (by omega),
            sliceL_app b (p.2 + 1 - blo) blo (p.2 + 1) bhi (by omega) (by omega)]
      · -- closest non-identical pair
        rw [Bool.not_eq_true] at hid
        have hneg : ¬fracLtF (fancySearch a b alo ahi blo bhi).bestRatio (75, 100) = true := by
          rw [hid]
          decide
        obtain ⟨p, hb⟩ := fancySearch_best_isSome a b alo ahi blo bhi hid
        obtain ⟨hp1, hp2, hp3, hp4⟩ := hspec.2.1 p hb
        rw [if_neg hneg, if_neg hneg, hb, Option.getD_some]
        rw [projNew_append, projNew_append]
        have hleft : projNew (if alo < p.1 then
            (if blo < p.2 then fancyReplaceF f a b alo p.1 blo p.2
             else dumpTag "-" a alo p.1)
            else if blo < p.2 then dumpTag "+" b blo p.2 else []) =
            sliceL b blo p.2 := by
          split
          · split
            · rename_i ha hbb
              exact ih a b alo p.1 blo p.2 (by omega) ha hbb (by omega) (by omega)
            · rename_i ha hbb
              rw [projNew_dump_minus, sliceL_empty b blo p.2 (by omega)]
          · split
            · rw [projNew_dump_plus]
            · rename_i ha hbb
              rw [projNew_nil, sliceL_empty b blo p.2 (by omega)]
        have hmid : projNew (qformat (a.getD p.1 "") (b.getD p.2 "")) = [b.getD p.2 ""] :=
          projNew_qformat _ _
        have hright : projNew (if p.1 + 1 < ahi then
            (if p.2 + 1 < bhi then fancyReplaceF f a b (p.1 + 1) ahi (p.2 + 1) bhi
             else dumpTag "-" a (p.1 + 1) ahi)
            else if p.2 + 1 < bhi then dumpTag "+" b (p.2 + 1) bhi else []) =
            sliceL b (p.2 + 1) bhi := by
          split
          · split
            · rename_i ha hbb
              exact ih a b (p.1 + 1) ahi (p.2 + 1) bhi (by omega) ha hbb h3 h4
            · rename_i ha hbb
              rw [projNew_dump_minus, sliceL_empty b (p.2 + 1) bhi (by omega)]
          · split
            · rw [projNew_dump_plus]
            · rename_i ha hbb
              rw [projNew_nil, sliceL_empty b (p.2 + 1) bhi (by omega)]
        rw [hleft, hmid, hright, ← sliceL_single b p.2 "" (by omega),
          sliceL_app b (p.2 - blo) blo p.2 (p.2 + 1) (by omega) (by omega),
          sliceL_app b (p.2 + 1 - blo) blo (p.2 + 1) bhi (by omega) (by omega)]

/-- The opcode walk over a separation chain of correct blocks, rendered by
the `Differ` dispatch, projects to the tail slice of `b`. -/
theorem opcodesGo_proj (a b : List String) :
    ∀ (blocks : List PyMatch) (i j : Nat),
      (∀ m ∈ blocks, validM 0 a.length 0 b.length m ∧ winEq a b m) →
      List.Chain' sepM blocks →
      blocks.getLast? = some ⟨a.length, b.length, 0⟩ →
      (∀ x ∈ blocks.head?, i ≤ x.a ∧ j ≤ x.b) →
      projNew ((opcodesGo i j blocks).flatMap (diffOp a b)) = sliceL b j b.length := by
  intro blocks
  induction blocks with
  | nil =>
    intro i j _ _ hlast _
    exact absurd hlast (by simp)
  | cons x rest ih =>
    intro i j hok hchain hlast hcur
    obtain ⟨hix, hjx⟩ := hcur x rfl
    obtain ⟨hvx, hwx⟩ := hok x (List.mem_cons_self _ _)
    have hvx' := hvx
    dsimp only [validM] at hvx'
    unfold opcodesGo
    dsimp only
    rw [List.flatMap_append, List.flatMap_append, projNew_append, projNew_append]
    have hpre : projNew (((if (if i < x.a ∧ j < x.b then "replace"
          else if i < x.a then "delete" else if j < x.b then "insert" else "") ≠ "" then
          [(⟨(if i < x.a ∧ j < x.b then "replace"
            else if i < x.a then "delete" else if j < x.b then "insert" else ""),
            i, x.a, j, x.b⟩ : Opcode)]
        else []).flatMap (diffOp a b))) = sliceL b j x.b := by
      by_cases hra : i < x.a <;> by_cases hrb : j < x.b
      · rw [if_pos (And.intro hra hrb),
          if_pos (by decide : ("replace" : String) ≠ ""),
          List.flatMap_cons, List.flatMap_nil, List.append_nil]
        unfold diffOp
        dsimp only
        rw [if_pos rfl]
        exact fancyReplaceF_proj _ a b i x.a j x.b (le_refl _) hra hrb (by omega) (by omega)
      · rw [if_neg (fun h => hrb (And.right h)),
          if_pos hra, if_pos (by decide : ("delete" : String) ≠ ""),
          List.flatMap_cons, List.flatMap_nil, List.append_nil]
        unfold diffOp
        dsimp only
        rw [if_neg (by decide), if_pos rfl, projNew_dump_minus,
          sliceL_empty b j x.b (by omega)]
      · rw [if_neg (fun h => hra (And.left h)),
          if_neg hra, if_pos hrb,
          if_pos (by decide : ("insert" : String) ≠ ""),
          List.flatMap_cons, List.flatMap_nil, List.append_nil]
        unfold diffOp
        dsimp only
        rw [if_neg (by decide), if_neg (by decide), if_pos rfl]
        exact projNew_dump_plus b j x.b
      · rw [if_neg (fun h => hra (And.left h)),
          if_neg hra, if_neg hrb,
          if_neg (by decide : ¬(("" : String) ≠ "")), List.flatMap_nil, projNew_nil,
          sliceL_empty b j x.b (by omega)]
    have hmid : projNew ((if x.size ≠ 0 then
        [(⟨"equal", x.a, x.a + x.size, x.b, x.b + x.size⟩ : Opcode)] else []).flatMap
          (diffOp a b)) = sliceL b x.b (x.b + x.size) := by
      split
      · rw [List.flatMap_cons, List.flatMap_nil, List.append_nil]
        unfold diffOp
        dsimp only
        rw [if_neg (by decide), if_neg (by decide), if_neg (by decide), projNew_dump_sp]
        exact winEq_slices a b x hvx hwx
      · rename_i hsz
        rw [List.flatMap_nil, projNew_nil, sliceL_empty b x.b (x.b + x.size) (by omega)]
    rcases rest with _ | ⟨y, rest'⟩
    · have hx : x = ⟨a.length, b.length, 0⟩ := by simpa using hlast
      subst hx
      dsimp only at hpre hmid hjx ⊢
      rw [hpre, hmid, sliceL_empty b b.length (b.length + 0) (by omega)]
      show (sliceL b j b.length ++ []) ++ projNew [] = sliceL b j b.length
      rw [projNew_nil, List.append_nil, List.append_nil]
    · have hchain2 := List.chain'_cons.1 hchain
      rw [List.getLast?_cons_cons] at hlast
      have hrest := ih (x.a + x.size) (x.b + x.size)
        (fun m hm => hok m (List.mem_cons_of_mem _ hm)) hchain2.2 hlast ?_
      · rw [hpre, hmid, hrest,
          sliceL_app b (x.b - j) j x.b (x.b + x.size) (by omega) (by omega),
          sliceL_app b (x.b + x.size - j) j (x.b + x.size) b.length (by omega) (by omega)]
      · intro z hz
        have hzy : y = z := by simpa using hz
        subst hzy
        have hsep := hchain2.1
        dsimp only [sepM] at hsep
        exact ⟨hsep.1, hsep.2⟩

/-- The central exactness fact: the payloads of the unchanged and inserted
lines of a word diff are exactly the new word sequence, in order. -/
theorem ndiffW_proj (a b : List String) : projNew (ndiffW a b) = b := by
  obtain ⟨h1, h2, h3⟩ := get_matching_blocks_spec noJunk a b
  have hop := opcodesGo_proj a b (get_matching_blocks noJunk a b) 0 0 h1 h2 h3
    (fun x _ => ⟨Nat.zero_le _, Nat.zero_le _⟩)
  unfold ndiffW differCompareWords get_opcodes
  rw [hop]
  unfold sliceL
  rw [List.drop_zero, Nat.sub_zero, List.take_length]

/-- Every `_dump` line is the tag, a space, and a payload. -/
theorem dumpTag_form (tag : String) (x : List String) (lo hi : Nat) (w : String)
    (h : w ∈ dumpTag tag x lo hi) : ∃ e, w = (tag ++ " ") ++ e := by
  unfold dumpTag at h
  obtain ⟨e, _, he⟩ := List.mem_map.1 h
  exact ⟨e, he.symm⟩

/-- Every `_qformat` line starts with `'- '`, `'+ '` or `'? '`. -/
theorem qformat_form (aline bline w : String) (h : w ∈ qformat aline bline) :
    (∃ e, w = "- " ++ e) ∨ (∃ e, w = "+ " ++ e) ∨ (∃ e, w = "? " ++ e) := by
  unfold qformat at h
  dsimp only at h
  rcases List.mem_append.1 h with h1 | h1
  · rcases List.mem_append.1 h1 with h2 | h2
    · rcases List.mem_append.1 h2 with h3 | h3
      · rcases List.mem_singleton.1 h3 with rfl
        exact Or.inl ⟨aline, rfl⟩
      · split at h3
        · rcases List.mem_singleton.1 h3 with rfl
          exact Or.inr (Or.inr ⟨_, rfl⟩)
        · exact absurd h3 (List.not_mem_nil w)
    · rcases List.mem_singleton.1 h2 with rfl
      exact Or.inr (Or.inl ⟨bline, rfl⟩)
  · split at h1
    · rcases List.mem_singleton.1 h1 with rfl
      exact Or.inr (Or.inr ⟨_, rfl⟩)
    · exact absurd h1 (List.not_mem_nil w)

/-- Membership in an `if` is membership in one of its branches. -/
theorem mem_ite_list {c : Prop} [Decidable c] {X Y : List String} {w : String}
    (h : w ∈ if c then X else Y) : w ∈ X ∨ w ∈ Y := by
  split at h
  · exact Or.inl h
  · exact Or.inr h

/-- Every `_fancy_replace` line starts with one of the four markers. -/
theorem fancy_line_form :
    ∀ (fuel : Nat) (a b : List String) (alo ahi blo bhi : Nat),
      ∀ w ∈ fancyReplaceF fuel a b alo ahi blo bhi,
        (∃ e, w = "- " ++ e) ∨ (∃ e, w = "+ " ++ e) ∨ (∃ e, w = "  " ++ e) ∨
          (∃ e, w = "? " ++ e) := by
  intro fuel
  induction fuel with
  | zero =>
    intro a b alo ahi blo bhi w hw
    exact absurd hw (List.not_mem_nil w)
  | succ f ih =>
    intro a b alo ahi blo bhi w hw
    unfold fancyReplaceF at hw
    dsimp only at hw
    rcases mem_ite_list hw with hw1 | hw1
    · unfold plainReplace at hw1
      rcases mem_ite_list hw1 with h1 | h1 <;> rcases List.mem_append.1 h1 with h2 | h2
      · obtain ⟨e, he⟩ := dumpTag_form "+" _ _ _ w h2
        exact Or.inr (Or.inl ⟨e, he⟩)
      · obtain ⟨e, he⟩ := dumpTag_form "-" _ _ _ w h2
        exact Or.inl ⟨e, he⟩
      · obtain ⟨e, he⟩ := dumpTag_form "-" _ _ _ w h2
        exact Or.inl ⟨e, he⟩
      · obtain ⟨e, he⟩ := dumpTag_form "+" _ _ _ w h2
        exact Or.inr (Or.inl ⟨e, he⟩)
    · rcases List.mem_append.1 hw1 with h1 | h1
      · rcases List.mem_append.1 h1 with h2 | h2
        · rcases mem_ite_list h2 with h3 | h3
          · rcases mem_ite_list h3 with h4 | h4
            · exact ih a b _ _ _ _ w h4
            · obtain ⟨e, he⟩ := dumpTag_form "-" _ _ _ w h4
              exact Or.inl ⟨e, he⟩
          · rcases mem_ite_list h3 with h4 | h4
            · obtain ⟨e, he⟩ := dumpTag_form "+" _ _ _ w h4
              exact Or.inr (Or.inl ⟨e, he⟩)
            · exact absurd h4 (List.not_mem_nil w)
        · rcases mem_ite_list h2 with h3 | h3
          · rcases List.mem_singleton.1 h3 with rfl
            exact Or.inr (Or.inr (Or.inl ⟨_, rfl⟩))
          · exact (qformat_form _ _ w h3).imp id (Or.imp id Or.inr)
      · rcases mem_ite_list h1 with h3 | h3
        · rcases mem_ite_list h3 with h4 | h4
          · exact ih a b _ _ _ _ w h4
          · obtain ⟨e, he⟩ := dumpTag_form "-" _ _ _ w h4
            exact Or.inl ⟨e, he⟩
        · rcases mem_ite_list h3 with h4 | h4
          · obtain ⟨e, he⟩ := dumpTag_form "+" _ _ _ w h4
            exact Or.inr (Or.inl ⟨e, he⟩)
          · exact absurd h4 (List.not_mem_nil w)

/-- Every line of a word diff starts with one of the four markers. -/
theorem ndiffW_line_form (a b : List String) : ∀ w ∈ ndiffW a b,
    (∃ e, w = "- " ++ e) ∨ (∃ e, w = "+ " ++ e) ∨ (∃ e, w = "  " ++ e) ∨
      (∃ e, w = "? " ++ e) := by
  intro w hw
  unfold ndiffW differCompareWords at hw
  obtain ⟨op, _, hwop⟩ := List.mem_flatMap.1 hw
  unfold diffOp at hwop
  split at hwop
  · exact fancy_line_form _ a b _ _ _ _ w hwop
  · split at hwop
    · obtain ⟨e, he⟩ := dumpTag_form "-" _ _ _ w hwop
      exact Or.inl ⟨e, he⟩
    · split at hwop
      · obtain ⟨e, he⟩ := dumpTag_form "+" _ _ _ w hwop
        exact Or.inr (Or.inl ⟨e, he⟩)
      · obtain ⟨e, he⟩ := dumpTag_form " " _ _ _ w hwop
        exact Or.inr (Or.inr (Or.inl ⟨e, he⟩))

/-- `filter` keeps a satisfying head (explicit-predicate form). -/
theorem filter_cons_pos2 (p : String → Bool) (a : String) (l : List String)
    (h : p a = true) : List.filter p (a :: l) = a :: List.filter p l :=
  List.filter_cons_of_pos h

/-- `filter` drops a failing head (explicit-predicate form). -/
theorem filter_cons_neg2 (p : String → Bool) (a : String) (l : List String)
    (h : p a = false) : List.filter p (a :: l) = List.filter p l := by
  refine List.filter_cons_of_neg ?_
  rw [h]
  decide

/-- On a hint-free line list, the kept lines decorated as `highlight_diff`
does are exactly the projected payloads, starred at the inserted ones. -/
theorem proj_filter_marked (L : List String)
    (hclass : ∀ w ∈ L, (∃ e, w = "- " ++ e) ∨ (∃ e, w = "+ " ++ e) ∨
      (∃ e, w = "  " ++ e) ∨ (∃ e, w = "? " ++ e))
    (hq : ∀ w ∈ L, pyStartsWith w "? " = false) :
    (L.filter (fun w => !pyStartsWith w "- ")).map
        (fun w => if pyStartsWith w "+ " then "*" ++ pyDrop w 2 ++ "*" else pyDrop w 2) =
      List.zipWith (fun w m => if m then "*" ++ w ++ "*" else w) (projNew L)
        ((L.filter (fun w => !pyStartsWith w "- ")).map (fun w => pyStartsWith w "+ ")) ∧
    ((L.filter (fun w => !pyStartsWith w "- ")).map
        (fun w => pyStartsWith w "+ ")).length = (projNew L).length := by
  induction L with
  | nil => exact ⟨rfl, rfl⟩
  | cons w rest ih =>
    obtain ⟨ih1, ih2⟩ := ih (fun u hu => hclass u (List.mem_cons_of_mem _ hu))
      (fun u hu => hq u (List.mem_cons_of_mem _ hu))
    rcases hclass w (List.mem_cons_self _ _) with ⟨e, rfl⟩ | ⟨e, rfl⟩ | ⟨e, rfl⟩ | ⟨e, rfl⟩
    · -- a removed line is dropped on both sides
      have hneg : (fun w => !pyStartsWith w "- ") ("- " ++ e) = false := by
        dsimp only
        rw [pyStartsWith_self_append]
        rfl
      rw [filter_cons_neg2 (fun w => !pyStartsWith w "- ") ("- " ++ e) rest hneg,
        projNew_skip _ '-' ' ' e.data (data_two_append "- " e '-' ' ' rfl)
          (by decide) (by decide)]
      exact ⟨ih1, ih2⟩
    · -- an inserted line is kept and starred
      have hpos : (fun w => !pyStartsWith w "- ") ("+ " ++ e) = true := by
        dsimp only
        rw [psw_shape ("+ " ++ e) "- " '+' ' ' '-' ' ' e.data
          (data_two_append "+ " e '+' ' ' rfl) rfl]
        rfl
      rw [filter_cons_pos2 (fun w => !pyStartsWith w "- ") ("+ " ++ e) rest hpos,
        List.map_cons, List.map_cons,
        projNew_keep _ '+' ' ' e.data (data_two_append "+ " e '+' ' ' rfl) (by decide),
        show String.mk e.data = e from rfl]
      rw [pyStartsWith_self_append, if_pos rfl, List.zipWith_cons_cons, if_pos rfl,
        pyDrop_two "+ " e '+' ' ' rfl, ih1]
      refine ⟨rfl, ?_⟩
      rw [List.length_cons, List.length_cons, ih2]
    · -- an unchanged line is kept unmarked
      have hpos : (fun w => !pyStartsWith w "- ") ("  " ++ e) = true := by
        dsimp only
        rw [psw_shape ("  " ++ e) "- " ' ' ' ' '-' ' ' e.data
          (data_two_append "  " e ' ' ' ' rfl) rfl]
        rfl
      rw [filter_cons_pos2 (fun w => !pyStartsWith w "- ") ("  " ++ e) rest hpos,
        List.map_cons, List.map_cons,
        projNew_keep _ ' ' ' ' e.data (data_two_append "  " e ' ' ' ' rfl) (by decide),
        show String.mk e.data = e from rfl]
      rw [psw_shape ("  " ++ e) "+ " ' ' ' ' '+' ' ' e.data
          (data_two_append "  " e ' ' ' ' rfl) rfl,
        if_neg (by decide : ¬((('+' == ' ') && (' ' == ' ')) = true)),
        List.zipWith_cons_cons,
        if_neg (by decide : ¬((('+' == ' ') && (' ' == ' ')) = true)),
        pyDrop_two "  " e ' ' ' ' rfl, ih1]
      refine ⟨rfl, ?_⟩
      rw [List.length_cons, List.length_cons, ih2]
    · -- a hint line contradicts the hint-free hypothesis
      exfalso
      have := hq _ (List.mem_cons_self _ _)
      rw [pyStartsWith_self_append] at this
      exact absurd this (by decide)

/-- A kept line's payload lies in the projection. -/
theorem pyDrop_mem_projNew (L : List String) (w' : String) (h : w' ∈ L)
    (hk : (pyStartsWith w' "  " || pyStartsWith w' "+ ") = true) :
    pyDrop w' 2 ∈ projNew L := by
  induction L with
  | nil => exact absurd h (List.not_mem_nil w')
  | cons x rest ih =>
    rw [projNew_cons]
    rcases List.mem_cons.1 h with rfl | h'
    · rw [if_pos hk]
      exact List.mem_append_left _ (List.mem_singleton.2 rfl)
    · exact List.mem_append_right _ (ih h')

/-- C1 (counterexample).  The claim says the highlighter's output consists
of exactly the tokens of the new text, each optionally star-marked; for
`new = "events"` the only such outputs are `"events"` and `"*events*"`,
but the code emits difflib's intraline hint residue instead. -/
theorem C1_counterexample :
    highlight_diff "events." "events" = "      -\n *events*" ∧
    pySplit "events" = ["events"] ∧
    highlight_diff "events." "events" ≠ "events" ∧
    highlight_diff "events." "events" ≠ "*events*" := by
  decide

/-- C1 as amended.  Whenever the word diff of (old, new) carries no
intraline `'? '` hint line, the highlighter's output is exactly the tokens
of the new text, in order, with some subset starred and removed words
dropped; and the spec's example pair yields exactly its expected output.
(With a hint line present the output also carries hint residue; see the
counterexample.) -/
theorem C1_amended_exact_tokens :
    (∀ old new : String,
      (∀ w ∈ ndiffW (pySplit old) (pySplit new), pyStartsWith w "? " = false) →
      ∃ marks : List Bool, marks.length = (pySplit new).length ∧
        highlight_diff old new = String.intercalate " "
          (List.zipWith (fun w m => if m then "*" ++ w ++ "*" else w) (pySplit new) marks)) ∧
    highlight_diff "The system shall log events." "The system shall log all events." =
      "The system shall log *all* events." := by
  constructor
  · intro old new hq
    obtain ⟨hzip, hlen⟩ := proj_filter_marked (ndiffW (pySplit old) (pySplit new))
      (ndiffW_line_form (pySplit old) (pySplit new)) hq
    rw [ndiffW_proj] at hzip hlen
    refine ⟨((ndiffW (pySplit old) (pySplit new)).filter
      (fun w => !pyStartsWith w "- ")).map (fun w => pyStartsWith w "+ "), hlen, ?_⟩
    unfold highlight_diff
    rw [hzip]
  · decide

/-- Witness for C1 as amended, at the specification's own example pair;
the hint-freeness hypothesis is discharged by computation. -/
theorem C1_amended_witness :
    (∀ w ∈ ndiffW (pySplit "The system shall log events.")
        (pySplit "The system shall log all events."), pyStartsWith w "? " = false) ∧
    ∃ marks : List Bool,
      marks.length = (pySplit "The system shall log all events.").length ∧
      highlight_diff "The system shall log events." "The system shall log all events." =
        String.intercalate " " (List.zipWith (fun w m => if m then "*" ++ w ++ "*" else w)
          (pySplit "The system shall log all events.") marks) :=
  ⟨by decide, C1_amended_exact_tokens.1 "The system shall log events."
    "The system shall log all events." (by decide)⟩

/-- C6.  The highlighter is a pure function of its two inputs (equal pairs
give equal outputs, so re-running with the same old/new reproduces the same
string), and every star-marked token it can ever emit is the payload of a
`'+ '` diff line, which is always a verbatim token of the new text — in
particular, when re-run with old set to a previously annotated output, no
token acquires nested or repeated insertion markers: stars only ever wrap
plain tokens of new. -/
theorem C6_deterministic_no_double_marking :
    (∀ o n o2 n2 : String, o = o2 → n = n2 → highlight_diff o n = highlight_diff o2 n2) ∧
    (∀ old new w : String, ("+ " ++ w) ∈ ndiffW (pySplit old) (pySplit new) →
      w ∈ pySplit new) ∧
    (∀ o n w : String, ("+ " ++ w) ∈ ndiffW (pySplit (highlight_diff o n)) (pySplit n) →
      w ∈ pySplit n) := by
  have hpayload : ∀ old new w : String,
      ("+ " ++ w) ∈ ndiffW (pySplit old) (pySplit new) → w ∈ pySplit new := by
    intro old new w hw
    have hm := pyDrop_mem_projNew _ _ hw
      (by rw [pyStartsWith_self_append]; exact Bool.or_true _)
    rw [ndiffW_proj, pyDrop_two "+ " w '+' ' ' rfl] at hm
    exact hm
  exact ⟨fun o n o2 n2 h1 h2 => by rw [h1, h2], hpayload,
    fun o n w hw => hpayload (highlight_diff o n) n w hw⟩

/-- Witness for C6: determinism at a concrete pair, and the re-application
membership at the annotated pair `("hello *world*", "hello world")`. -/
theorem C6_witness :
    highlight_diff "ab cd" "ab ce" = highlight_diff "ab cd" "ab ce" ∧
    ("+ " ++ "world") ∈ ndiffW (pySplit "hello *world*") (pySplit "hello world") ∧
    "world" ∈ pySplit "hello world" :=
  ⟨C6_deterministic_no_double_marking.1 "ab cd" "ab ce" "ab cd" "ab ce" rfl rfl,
   by decide,
   C6_deterministic_no_double_marking.2.1 "hello *world*" "hello world" "world"
     (by decide)⟩

end Verkush
